import Mathlib

/-!
# Write-through client of the resource mirror (`internal/mongo/wtclient.go`)

A shallow embedding of `WriteThroughClient` and of the parts of its collaborators that
its behaviour depends on:

* the Go values carried by an `unstructured.Unstructured` (JSON trees) and the heap cell
  that holds an object's top-level `map[string]interface{}`;
* the document store behind the driver calls `UpdateOne`, `DeleteOne` and
  `Indexes().CreateOne`;
* Go's `strings.ToLower`, branch by branch, over the case tables of the package `unicode`;
* the methods `EnsureIndexes`, `Add`, `Update`, `Delete`, `createFilterAndUpdate` and
  `getCollection`, line by line, as state-passing functions of one caller.

The environment decides whether a driver call fails: every method that makes a driver
call takes the error of that call, if any, as an argument.
-/

namespace Quasar

/-! ## Go values held by an unstructured object -/

/-- A value of type `interface{}` inside an unstructured object: the JSON kinds that
`runtime.DeepCopyJSONValue` accepts. A `float64` is kept as its bit pattern. -/
inductive Value where
  | null
  | bool (b : Bool)
  | int (n : Int)
  | float (bits : Nat)
  | str (s : String)
  | list (xs : List Value)
  | map (fields : List (String × Value))

/-- The entries of a `map[string]interface{}` (also of a `bson.M` or `bson.D`). The map a
list denotes is given by `mapIndex`: the first entry of a key is the one that counts. -/
abbrev Fields := List (String × Value)

namespace Value

mutual
/-- Equality of two values is decidable. -/
def decEq : (a b : Value) → Decidable (a = b)
  | null, null => isTrue rfl
  | bool a, bool b =>
    if h : a = b then isTrue (by rw [h]) else isFalse (by intro e; cases e; exact h rfl)
  | int a, int b =>
    if h : a = b then isTrue (by rw [h]) else isFalse (by intro e; cases e; exact h rfl)
  | float a, float b =>
    if h : a = b then isTrue (by rw [h]) else isFalse (by intro e; cases e; exact h rfl)
  | str a, str b =>
    if h : a = b then isTrue (by rw [h]) else isFalse (by intro e; cases e; exact h rfl)
  | list a, list b =>
    match decEqList a b with
    | isTrue h => isTrue (by rw [h])
    | isFalse h => isFalse (by intro e; cases e; exact h rfl)
  | map a, map b =>
    match decEqFields a b with
    | isTrue h => isTrue (by rw [h])
    | isFalse h => isFalse (by intro e; cases e; exact h rfl)
  | null, bool _ | null, int _ | null, float _ | null, str _ | null, list _ | null, map _ =>
    isFalse (by intro e; cases e)
  | bool _, null | bool _, int _ | bool _, float _ | bool _, str _ | bool _, list _
  | bool _, map _ => isFalse (by intro e; cases e)
  | int _, null | int _, bool _ | int _, float _ | int _, str _ | int _, list _
  | int _, map _ => isFalse (by intro e; cases e)
  | float _, null | float _, bool _ | float _, int _ | float _, str _ | float _, list _
  | float _, map _ => isFalse (by intro e; cases e)
  | str _, null | str _, bool _ | str _, int _ | str _, float _ | str _, list _
  | str _, map _ => isFalse (by intro e; cases e)
  | list _, null | list _, bool _ | list _, int _ | list _, float _ | list _, str _
  | list _, map _ => isFalse (by intro e; cases e)
  | map _, null | map _, bool _ | map _, int _ | map _, float _ | map _, str _
  | map _, list _ => isFalse (by intro e; cases e)
/-- Equality of two slices of values is decidable. -/
def decEqList : (a b : List Value) → Decidable (a = b)
  | [], [] => isTrue rfl
  | [], _ :: _ => isFalse (by intro e; cases e)
  | _ :: _, [] => isFalse (by intro e; cases e)
  | x :: xs, y :: ys =>
    match decEq x y, decEqList xs ys with
    | isTrue h1, isTrue h2 => isTrue (by rw [h1, h2])
    | isFalse h, _ => isFalse (by intro e; cases e; exact h rfl)
    | _, isFalse h => isFalse (by intro e; cases e; exact h rfl)
/-- Equality of two entry lists is decidable. -/
def decEqFields : (a b : List (String × Value)) → Decidable (a = b)
  | [], [] => isTrue rfl
  | [], _ :: _ => isFalse (by intro e; cases e)
  | _ :: _, [] => isFalse (by intro e; cases e)
  | (k, x) :: xs, (l, y) :: ys =>
    if hk : k = l then
      match decEq x y, decEqFields xs ys with
      | isTrue h1, isTrue h2 => isTrue (by rw [hk, h1, h2])
      | isFalse h, _ => isFalse (by intro e; cases e; exact h rfl)
      | _, isFalse h => isFalse (by intro e; cases e; exact h rfl)
    else isFalse (by intro e; cases e; exact hk rfl)
end

instance : DecidableEq Value := decEq

end Value

/-- The Go expression `m[k]` with its `ok` flag: the value bound to `k`, if any. -/
def mapIndex : Fields → String → Option Value
  | [], _ => none
  | (k', v) :: rest, k => if k' = k then some v else mapIndex rest k

/-- The Go statement `m[k] = v`: rebinds `k` where it is bound, adds the entry otherwise. -/
def mapAssign : Fields → String → Value → Fields
  | [], k, v => [(k, v)]
  | (k', v') :: rest, k, v =>
    if k' = k then (k, v) :: rest else (k', v') :: mapAssign rest k v

mutual
/-- The function `runtime.DeepCopyJSONValue`: a map is rebuilt entry by entry with copied
values, a slice element by element, and a scalar is returned as it is. -/
def DeepCopyJSONValue : Value → Value
  | .map fields => .map (DeepCopyJSON fields)
  | .list xs => .list (deepCopySlice xs)
  | .null => .null
  | .bool b => .bool b
  | .int n => .int n
  | .float bits => .float bits
  | .str s => .str s
/-- The function `runtime.DeepCopyJSON`, the map case of `DeepCopyJSONValue`. -/
def DeepCopyJSON : List (String × Value) → List (String × Value)
  | [] => []
  | (k, v) :: rest => (k, DeepCopyJSONValue v) :: DeepCopyJSON rest
/-- The slice case of `DeepCopyJSONValue`. -/
def deepCopySlice : List Value → List Value
  | [] => []
  | x :: xs => DeepCopyJSONValue x :: deepCopySlice xs
end

/-! ## The heap of top-level maps

A Go map is a reference. The only map the client writes to is a top-level one
(`objCopy["_id"] = ...`), so top-level maps live in heap cells and are reached by
address, while the values below them are kept as trees. -/

/-- The address of a heap cell. -/
abbrev Addr := Nat

/-- The heap: cell `a` holds the entries of the map allocated at address `a`. -/
abbrev Heap := List Fields

/-- The entries of the map at address `a`. -/
def Heap.read (h : Heap) (a : Addr) : Fields := (h[a]?).getD []

/-- The statement `m[k] = v` through the reference `a`. -/
def Heap.assign (h : Heap) (a : Addr) (k : String) (v : Value) : Heap :=
  h.set a (mapAssign (h.read a) k v)

/-- Allocation of a new map with the given entries; returns its address. -/
def Heap.alloc (h : Heap) (m : Fields) : Heap × Addr := (h ++ [m], h.length)

/-- The struct `unstructured.Unstructured`: its field `Object` refers to the map of the
resource's fields. Resources handed to the client carry an allocated map; an object with a
nil `Object`, on which the assignment in `createFilterAndUpdate` panics, is not modelled. -/
structure Unstructured where
  Object : Addr
deriving DecidableEq

/-- A resource is live in a heap when its `Object` map is allocated there. -/
def Live (h : Heap) (obj : Unstructured) : Prop := obj.Object < h.length

instance (h : Heap) (obj : Unstructured) : Decidable (Live h obj) :=
  inferInstanceAs (Decidable (obj.Object < h.length))

/-- The method `Unstructured.DeepCopy`: a new object whose map is a deep copy. -/
def Unstructured.DeepCopy (h : Heap) (obj : Unstructured) : Heap × Unstructured :=
  let (h1, a) := h.alloc (DeepCopyJSON (h.read obj.Object))
  (h1, { Object := a })

/-- The method `Unstructured.GetUID`: the string at `metadata.uid`, and the empty string
when the path is missing or does not hold a string (`getNestedString`). -/
def Unstructured.GetUID (h : Heap) (obj : Unstructured) : String :=
  match mapIndex (h.read obj.Object) "metadata" with
  | some (.map metadata) =>
    match mapIndex metadata "uid" with
    | some (.str uid) => uid
    | _ => ""
  | _ => ""

/-! ## Projection of a resource: `createFilterAndUpdate` -/

/-- The method `createFilterAndUpdate` (wtclient.go, lines 111 to 115). It returns the heap
after the call, the filter `bson.M{"_id": uid}` and the update `bson.D{{"$set", objCopy}}`.
A `types.UID` is a string type, which the driver encodes as a BSON string. -/
def createFilterAndUpdate (h : Heap) (obj : Unstructured) : Heap × Fields × Fields :=
  let (h1, copy) := obj.DeepCopy h
  let objCopy := copy.Object
  let h2 := h1.assign objCopy "_id" (.str (obj.GetUID h1))
  (h2, [("_id", .str (obj.GetUID h2))], [("$set", .map (h2.read objCopy))])

/-! ## Collection names -/

/-- What `strings.ToLower` takes from the tables of Go's package `unicode` for a rune above
`unicode.MaxASCII`. The tables belong to the Go toolchain and change with its Unicode
version, so they are parameters of the development. -/
structure UnicodeTables where
  /-- The call `unicode.To(unicode.LowerCase, r)`. -/
  toLower : Char → Char
  /-- The function `unicode.IsUpper` on a rune above ASCII. -/
  isUpper : Char → Bool

/-- The function `unicode.ToLower`: below `MaxASCII` a capital is moved by `'a' - 'A'` and
any other rune is returned as it is; above, the case table decides. -/
def unicodeToLower (T : UnicodeTables) (r : Char) : Char :=
  if r.toNat ≤ 127 then
    if 'A' ≤ r ∧ r ≤ 'Z' then Char.ofNat (r.toNat + ('a'.toNat - 'A'.toNat)) else r
  else T.toLower r

/-- The function `unicode.IsUpper`: of the ASCII runes exactly `A` to `Z` are upper-case
letters; above ASCII the table decides. -/
def unicodeIsUpper (T : UnicodeTables) (r : Char) : Bool :=
  if r.toNat ≤ 127 then decide ('A' ≤ r ∧ r ≤ 'Z') else T.isUpper r

/-- The first loop of `strings.ToLower`: returns `(isASCII, hasUpper)`. The loop stops with
`isASCII = false` at the first rune that is not below `utf8.RuneSelf`. A string is taken
as its sequence of runes: in valid UTF-8 a byte is at least `RuneSelf` exactly inside the
encoding of such a rune. -/
def scanASCII : List Char → Bool → Bool × Bool
  | [], hasUpper => (true, hasUpper)
  | c :: rest, hasUpper =>
    if c.toNat ≥ 128 then (false, hasUpper)
    else scanASCII rest (hasUpper || decide ('A' ≤ c ∧ c ≤ 'Z'))

/-- The second loop of `strings.ToLower`, on an ASCII string with a capital: `b` is the
builder and `pending` the slice `s[pos:i]` not yet written. At a capital the pending slice
and the lowered byte are written; at the end the rest of the string is written. -/
def lowerASCII : List Char → List Char → List Char → List Char
  | [], b, pending => b ++ pending
  | c :: rest, b, pending =>
    if 'A' ≤ c ∧ c ≤ 'Z' then
      lowerASCII rest (b ++ pending ++ [Char.ofNat (c.toNat + ('a'.toNat - 'A'.toNat))]) []
    else lowerASCII rest b (pending ++ [c])

/-- The function `strings.Map` for a mapping that drops no rune. -/
def Map (mapping : Char → Char) (s : String) : String := ⟨s.data.map mapping⟩

/-- The function `strings.ToLower`, branch by branch: an ASCII string without a capital is
returned as it is, an ASCII string with a capital goes through the byte loop, and any
other string through `Map(unicode.ToLower, s)`. -/
def ToLower (T : UnicodeTables) (s : String) : String :=
  match scanASCII s.data false with
  | (true, false) => s
  | (true, true) => ⟨lowerASCII s.data [] []⟩
  | (false, _) => Map (unicodeToLower T) s

/-- The struct `schema.GroupVersionResource`. -/
structure GroupVersionResource where
  Group : String
  Version : String
  Resource : String
deriving DecidableEq

/-- The local `colName` of `EnsureIndexes` (wtclient.go, line 44):
`strings.ToLower(fmt.Sprintf("%s.%s.%s", resource.Resource, resource.Group, resource.Version))`. -/
def colName (T : UnicodeTables) (resource : GroupVersionResource) : String :=
  ToLower T (resource.Resource ++ "." ++ resource.Group ++ "." ++ resource.Version)

/-! ## The document store behind the driver

The store is the external collaborator: these definitions state what the driver calls of
the client do to it. A document maps field names to values; field names are taken as
they are (a dotted name is not read as a path into embedded documents). -/

/-- A stored document: the value of every field it has. -/
abbrev Doc := String → Option Value

/-- A collection handle `client.Database(database).Collection(collection)`. -/
structure Namespace where
  database : String
  collection : String
deriving DecidableEq

/-- The documents of the store, each with the collection that holds it, in insertion order. -/
abbrev Store := List (Namespace × Doc)

/-- The store keeps the values of `_id` unique inside a collection. -/
def Store.UniqueIds (db : Store) : Prop :=
  (db.map fun (e : Namespace × Doc) => (e.1, e.2 "_id")).Nodup

instance (db : Store) : Decidable db.UniqueIds :=
  inferInstanceAs (Decidable (db.map fun (e : Namespace × Doc) => (e.1, e.2 "_id")).Nodup)

/-- An equality filter matches a document that has every field of the filter with the
same value. -/
def matchesFilter (filter : Fields) (doc : Doc) : Bool :=
  filter.all fun kv => decide (doc kv.1 = some kv.2)

/-- The records of collection `ns` whose `_id` is the string `uid`. -/
def Store.records (db : Store) (ns : Namespace) (uid : String) : List Doc :=
  (db.filter fun e => decide (e.1 = ns) && matchesFilter [("_id", .str uid)] e.2).map Prod.snd

/-- The update operator `$set`: each listed field gets the listed value, every other field
of the document stays as it is. -/
def setFields (doc : Doc) (fields : Fields) : Doc :=
  fun k =>
    match mapIndex fields k with
    | some v => some v
    | none => doc k

/-- Application of an update document, operator by operator. The client only ever sends
`$set`; no other operator is interpreted. -/
def applyUpdate (update : Fields) (doc : Doc) : Doc :=
  update.foldl
    (fun d op =>
      match op with
      | ("$set", .map fields) => setFields d fields
      | _ => d)
    doc

/-- The document an upsert inserts when nothing matches: the equality fields of the
filter, then the update applied to them. -/
def upsertDoc (filter update : Fields) : Doc :=
  applyUpdate update (mapIndex filter)

/-- The first document of `ns` that matches the filter is updated; `none` when no document
matches. -/
def updateFirst (ns : Namespace) (filter update : Fields) : Store → Option Store
  | [] => none
  | e :: rest =>
    if e.1 = ns ∧ matchesFilter filter e.2 = true then
      some ((e.1, applyUpdate update e.2) :: rest)
    else
      (updateFirst ns filter update rest).map (e :: ·)

/-- The first document of `ns` that matches the filter is removed; the store is returned
as it is when no document matches. -/
def deleteFirst (ns : Namespace) (filter : Fields) : Store → Store
  | [] => []
  | e :: rest =>
    if e.1 = ns ∧ matchesFilter filter e.2 = true then rest
    else e :: deleteFirst ns filter rest

/-- The driver call `Collection.UpdateOne(ctx, filter, update, opts)`, where `upsert` is
the option set by `SetUpsert`. `fault` is the error with which the environment makes the
call fail, if it does; a failed call leaves the store as it was. -/
def UpdateOne (fault : Option String) (db : Store) (ns : Namespace) (filter update : Fields)
    (upsert : Bool) : Except String Store :=
  match fault with
  | some err => .error err
  | none =>
    match updateFirst ns filter update db with
    | some db1 => .ok db1
    | none => if upsert then .ok (db ++ [(ns, upsertDoc filter update)]) else .ok db

/-- The driver call `Collection.DeleteOne(ctx, filter)`: a call that matches no document
succeeds and deletes nothing. -/
def DeleteOne (fault : Option String) (db : Store) (ns : Namespace) (filter : Fields) :
    Except String Store :=
  match fault with
  | some err => .error err
  | none => .ok (deleteFirst ns filter db)

/-- The driver type `mongo.IndexModel`: the keys with their direction and the options
that the client's configuration can set. -/
structure IndexModel where
  Keys : List (String × Int)
  Name : Option String
  Unique : Bool
deriving DecidableEq

/-- The name the store gives an index: the configured one, or the keys and directions
joined by underscores. -/
def IndexModel.indexName (m : IndexModel) : String :=
  m.Name.getD ("_".intercalate (m.Keys.map fun kd => kd.1 ++ "_" ++ toString kd.2))

/-- The driver call `Collection.Indexes().CreateOne(ctx, model)`: returns the index name
and the error, together with the indexes of the store after the call. Creating an index
that is already there changes nothing. -/
def CreateOne (fault : Option String) (indexes : List (Namespace × IndexModel)) (ns : Namespace)
    (model : IndexModel) : String × Option String × List (Namespace × IndexModel) :=
  match fault with
  | some err => ("", some err, indexes)
  | none =>
    (model.indexName, none, if (ns, model) ∈ indexes then indexes else indexes ++ [(ns, model)])

/-! ## The client -/

/-- Modelled from the spec: an IndexSpec, "configuration-declared description of an
index — target fields, ordering/uniqueness options"; the type `config.MongoIndex` is
declared in the package `config`, which is not among the sources. -/
structure MongoIndex where
  Fields : List (String × Int)
  Unique : Bool
deriving DecidableEq

/-- The struct `config.MongoConfiguration`, with the fields the client reads. -/
structure MongoConfiguration where
  Uri : String
  Database : String
  Indexes : List MongoIndex

/-- What the client uses from outside the sources at hand: the tables of Go's package
`unicode`, and the packages `config` and `utils` of the repository. These are parameters
of the development. The two `utils` helpers read the fields of the object they are
given. -/
structure Packages where
  /-- The tables behind `strings.ToLower`. -/
  Unicode : UnicodeTables
  /-- The call `config.Current.Kubernetes.GetGroupVersionResource()`. -/
  GetGroupVersionResource : GroupVersionResource
  /-- The method `MongoIndex.ToIndexModel`. -/
  ToIndexModel : MongoIndex → IndexModel
  /-- The function `utils.GetGroupVersionId`. -/
  GetGroupVersionId : Fields → String
  /-- The function `utils.CreateFieldsForOp`. -/
  CreateFieldsForOp : String → Fields → Fields

/-- The struct `WriteThroughClient`. Its `client` is the connection to the store held in
the `World`, its `ctx` is the background context, and its `mutex` orders concurrent
callers: a call that runs alone finds it free and leaves it free. -/
structure WriteThroughClient where
  config : MongoConfiguration

/-- A level of the logger. -/
inductive Level where
  | debug
  | warn
  | error
deriving DecidableEq

/-- One event written to the log. -/
structure LogEntry where
  level : Level
  fields : Fields
  err : Option String
  msg : String
deriving DecidableEq

/-- A call made to the driver. -/
inductive DriverCall where
  | updateOne (ns : Namespace) (filter update : Fields) (upsert : Bool)
  | deleteOne (ns : Namespace) (filter : Fields)
  | createIndex (ns : Namespace) (model : IndexModel)
deriving DecidableEq

/-- Everything the client reads or changes: the heap of the process, the documents and
indexes of the store, the driver calls made so far and the log. -/
structure World where
  heap : Heap
  db : Store
  indexes : List (Namespace × IndexModel)
  calls : List DriverCall
  log : List LogEntry

/-- The method `getCollection` (wtclient.go, lines 117 to 119). -/
def WriteThroughClient.getCollection (P : Packages) (c : WriteThroughClient) (h : Heap)
    (obj : Unstructured) : Namespace :=
  { database := c.config.Database, collection := P.GetGroupVersionId (h.read obj.Object) }

/-- The method `Add` (wtclient.go, lines 60 to 75) as run by one caller, for whom `Lock` and
the deferred `Unlock` change nothing. `fault` is the error of the `UpdateOne` call, if the call
fails. -/
def WriteThroughClient.Add (P : Packages) (c : WriteThroughClient) (fault : Option String)
    (w : World) (obj : Unstructured) : World :=
  let opts := true
  let (heap, filter, update) := createFilterAndUpdate w.heap obj
  let col := c.getCollection P heap obj
  let calls := w.calls ++ [.updateOne col filter update opts]
  match UpdateOne fault w.db col filter update opts with
  | .error err =>
    { w with
      heap := heap, calls := calls,
      log := w.log ++ [{ level := .warn, fields := [("_id", .str (obj.GetUID heap))],
                         err := some err, msg := "Could not add object to MongoDB" }] }
  | .ok db =>
    { w with
      heap := heap, db := db, calls := calls,
      log := w.log ++ [{ level := .debug,
                         fields := P.CreateFieldsForOp "wt-add" (heap.read obj.Object),
                         err := none, msg := "Object added to MongoDB" }] }

/-- The method `Update` (wtclient.go, lines 77 to 92) as run by one caller, for whom `Lock` and
the deferred `Unlock` change nothing. `fault` is the error of the `UpdateOne` call, if the call
fails. -/
def WriteThroughClient.Update (P : Packages) (c : WriteThroughClient) (fault : Option String)
    (w : World) (obj : Unstructured) : World :=
  let opts := false
  let (heap, filter, update) := createFilterAndUpdate w.heap obj
  let col := c.getCollection P heap obj
  let calls := w.calls ++ [.updateOne col filter update opts]
  match UpdateOne fault w.db col filter update opts with
  | .error err =>
    { w with
      heap := heap, calls := calls,
      log := w.log ++ [{ level := .warn, fields := [("_id", .str (obj.GetUID heap))],
                         err := some err, msg := "Could not update object to MongoDB" }] }
  | .ok db =>
    { w with
      heap := heap, db := db, calls := calls,
      log := w.log ++ [{ level := .debug,
                         fields := P.CreateFieldsForOp "wt-update" (heap.read obj.Object),
                         err := none, msg := "Object updated in MongoDB" }] }

/-- The method `Delete` (wtclient.go, lines 94 to 109) as run by one caller, for whom `Lock` and
the deferred `Unlock` change nothing. `fault` is the error of the `DeleteOne` call, if the call
fails. -/
def WriteThroughClient.Delete (P : Packages) (c : WriteThroughClient) (fault : Option String)
    (w : World) (obj : Unstructured) : World :=
  let (heap, filter, _) := createFilterAndUpdate w.heap obj
  let col := c.getCollection P heap obj
  let calls := w.calls ++ [.deleteOne col filter]
  match DeleteOne fault w.db col filter with
  | .error err =>
    { w with
      heap := heap, calls := calls,
      log := w.log ++ [{ level := .warn, fields := [("_id", .str (obj.GetUID heap))],
                         err := some err, msg := "Could not delete object from MongoDB" }] }
  | .ok db =>
    { w with
      heap := heap, db := db, calls := calls,
      log := w.log ++ [{ level := .debug,
                         fields := P.CreateFieldsForOp "wt-delete" (heap.read obj.Object),
                         err := none, msg := "Object deleted from MongoDB" }] }

/-- One pass of the loop body of `EnsureIndexes` (wtclient.go, lines 43 to 56) for the
spec `index`. `fault` is the error of the `CreateOne` call, if the call fails. -/
def WriteThroughClient.ensureIndex (P : Packages) (c : WriteThroughClient)
    (fault : Option String) (w : World) (index : MongoIndex) : World :=
  let resource := P.GetGroupVersionResource
  let col : Namespace := { database := c.config.Database, collection := colName P.Unicode resource }
  let model := P.ToIndexModel index
  let calls := w.calls ++ [.createIndex col model]
  match CreateOne fault w.indexes col model with
  | (indexName, some err, _) =>
    { w with
      calls := calls,
      log := w.log ++ [{ level := .error, fields := [("index", .str indexName)],
                         err := some err, msg := "Could not create index" }] }
  | (indexName, none, indexes) =>
    { w with
      indexes := indexes, calls := calls,
      log := w.log ++ [{ level := .debug, fields := [("index", .str indexName)],
                         err := none, msg := "Created index" }] }

/-- The loop of `EnsureIndexes` over the specs that are left. The head of `faults` is the
outcome of the next `CreateOne` call; a call beyond the end of `faults` succeeds. -/
def WriteThroughClient.ensureLoop (P : Packages) (c : WriteThroughClient) :
    List MongoIndex → List (Option String) → World → World
  | [], _, w => w
  | index :: rest, faults, w =>
    ensureLoop P c rest faults.tail (c.ensureIndex P (faults.headD none) w index)

/-- The method `EnsureIndexes` (wtclient.go, lines 41 to 58). -/
def WriteThroughClient.EnsureIndexes (P : Packages) (c : WriteThroughClient)
    (faults : List (Option String)) (w : World) : World :=
  c.ensureLoop P c.config.Indexes faults w

/-! ## Auxiliary definitions for the statements -/

/-- The entries of `objCopy` when `createFilterAndUpdate` returns: the fields of the
resource with `_id` bound to its UID. -/
def objCopyOf (h : Heap) (obj : Unstructured) : Fields :=
  mapAssign (h.read obj.Object) "_id" (.str (obj.GetUID h))

/-! ## Example inputs

The Widget of the example scenario, in two versions with the same UID, and a store that
already holds the record of another object. -/

/-- A Widget with `spec.name = "foo"` and a `status` field. -/
def exWidgetFoo : Fields :=
  [("apiVersion", .str "example.com/v1"), ("kind", .str "Widget"),
   ("metadata", .map [("name", .str "w1"), ("uid", .str "abc123")]),
   ("spec", .map [("name", .str "foo")]),
   ("status", .map [("phase", .str "Ready")])]

/-- The same Widget with `spec.name = "bar"` and no `status` field. -/
def exWidgetBar : Fields :=
  [("apiVersion", .str "example.com/v1"), ("kind", .str "Widget"),
   ("metadata", .map [("name", .str "w1"), ("uid", .str "abc123")]),
   ("spec", .map [("name", .str "bar")])]

/-- An object whose own fields already have a top-level `_id`. -/
def exWithId : Fields :=
  [("_id", .int 7), ("kind", .str "Widget"),
   ("metadata", .map [("uid", .str "abc123")])]

/-- The entries of Go's tables for three runes, used on the example inputs only:
`unicode.ToLower` maps U+00C9 (capital E with acute) to U+00E9 and U+212A (Kelvin sign) to
`k`, and leaves U+2102 (double-struck capital C), which has no lower-case form, as it is;
`unicode.IsUpper` holds of all three. Every other rune is left alone by this instance. -/
def exTables : UnicodeTables where
  toLower := fun r =>
    if r = Char.ofNat 0xC9 then Char.ofNat 0xE9
    else if r = Char.ofNat 0x212A then 'k'
    else r
  isUpper := fun r => r = Char.ofNat 0xC9 || r = Char.ofNat 0x212A || r = Char.ofNat 0x2102

/-- An instance of the parameters, used on the example inputs only: the collection name of
an object is made of its `kind` and `apiVersion`. -/
def exPackages : Packages where
  Unicode := exTables
  GetGroupVersionResource := { Group := "example.com", Version := "v1", Resource := "Widget" }
  ToIndexModel := fun index => { Keys := index.Fields, Name := none, Unique := index.Unique }
  GetGroupVersionId := fun fields =>
    match mapIndex fields "kind", mapIndex fields "apiVersion" with
    | some (.str kind), some (.str apiVersion) => ToLower exTables (kind ++ "." ++ apiVersion)
    | _, _ => ""
  CreateFieldsForOp := fun op fields =>
    [("operation", .str op), ("uid", (mapIndex fields "metadata").getD .null)]

/-- A client configured with one unique index on `spec.name` and one on `spec.owner`. -/
def exClient : WriteThroughClient where
  config :=
    { Uri := "mongodb://localhost:27017", Database := "horizon",
      Indexes := [{ Fields := [("spec.name", 1)], Unique := true },
                  { Fields := [("spec.owner", 1)], Unique := false }] }

/-- A world with the three objects on the heap and one record of another Widget. -/
def exWorld : World where
  heap := [exWidgetFoo, exWidgetBar, exWithId]
  db := [({ database := "horizon", collection := "widget.example.com/v1" },
          mapIndex [("_id", .str "zzz999"), ("spec", .map [("name", .str "baz")])])]
  indexes := []
  calls := []
  log := []

/-! ## Lemmas -/

/-! ### Go maps and the heap -/

theorem mapIndex_mapAssign_self (m : Fields) (k : String) (v : Value) :
    mapIndex (mapAssign m k v) k = some v := by
  induction m with
  | nil => simp [mapAssign, mapIndex]
  | cons e rest ih =>
    obtain ⟨k', v'⟩ := e
    by_cases h : k' = k
    · simp [mapAssign, mapIndex, h]
    · simp [mapAssign, mapIndex, h, ih]

theorem mapIndex_mapAssign_ne (m : Fields) (k k' : String) (v : Value) (hne : k' ≠ k) :
    mapIndex (mapAssign m k v) k' = mapIndex m k' := by
  induction m with
  | nil => simp [mapAssign, mapIndex, hne.symm]
  | cons e rest ih =>
    obtain ⟨k1, v1⟩ := e
    by_cases h : k1 = k
    · subst h
      simp [mapAssign, mapIndex, hne.symm]
    · simp [mapAssign, mapIndex, h, ih]

mutual
theorem DeepCopyJSONValue_eq : ∀ v : Value, DeepCopyJSONValue v = v
  | .map fields => by rw [DeepCopyJSONValue, DeepCopyJSON_eq fields]
  | .list xs => by rw [DeepCopyJSONValue, deepCopySlice_eq xs]
  | .null => by rw [DeepCopyJSONValue]
  | .bool b => by rw [DeepCopyJSONValue]
  | .int n => by rw [DeepCopyJSONValue]
  | .float bits => by rw [DeepCopyJSONValue]
  | .str s => by rw [DeepCopyJSONValue]
theorem DeepCopyJSON_eq : ∀ fields : List (String × Value), DeepCopyJSON fields = fields
  | [] => by rw [DeepCopyJSON]
  | (k, v) :: rest => by rw [DeepCopyJSON, DeepCopyJSONValue_eq v, DeepCopyJSON_eq rest]
theorem deepCopySlice_eq : ∀ xs : List Value, deepCopySlice xs = xs
  | [] => by rw [deepCopySlice]
  | x :: xs => by rw [deepCopySlice, DeepCopyJSONValue_eq x, deepCopySlice_eq xs]
end

theorem Heap.read_append_of_lt (h : Heap) (m : Fields) (a : Addr) (ha : a < h.length) :
    Heap.read (h ++ [m]) a = h.read a := by
  simp [Heap.read, List.getElem?_append_left ha]

theorem Heap.read_append_length (h : Heap) (m : Fields) :
    Heap.read (h ++ [m]) h.length = m := by
  simp [Heap.read]

theorem Heap.read_assign_ne (h : Heap) (a b : Addr) (k : String) (v : Value) (hne : b ≠ a) :
    (h.assign b k v).read a = h.read a := by
  simp [Heap.read, Heap.assign, List.getElem?_set, hne]

theorem Heap.read_assign_self (h : Heap) (a : Addr) (k : String) (v : Value)
    (ha : a < h.length) : (h.assign a k v).read a = mapAssign (h.read a) k v := by
  simp [Heap.read, Heap.assign, List.getElem?_set, ha]

theorem Heap.length_assign (h : Heap) (a : Addr) (k : String) (v : Value) :
    (h.assign a k v).length = h.length := by
  simp [Heap.assign]

theorem GetUID_congr (h h' : Heap) (obj : Unstructured)
    (heq : h'.read obj.Object = h.read obj.Object) : obj.GetUID h' = obj.GetUID h := by
  simp [Unstructured.GetUID, heq]

/-- The heap that `createFilterAndUpdate` leaves: one new cell, the copy with its `_id`. -/
theorem createFilterAndUpdate_eq (h : Heap) (obj : Unstructured) (hlive : Live h obj) :
    createFilterAndUpdate h obj =
      (h ++ [objCopyOf h obj], [("_id", .str (obj.GetUID h))],
       [("$set", .map (objCopyOf h obj))]) := by
  unfold objCopyOf
  have hlt : obj.Object < h.length := hlive
  have hne : h.length ≠ obj.Object := Nat.ne_of_gt hlt
  have h1 : obj.GetUID (h ++ [h.read obj.Object]) = obj.GetUID h :=
    GetUID_congr _ _ _ (Heap.read_append_of_lt _ _ _ hlt)
  have h2 : ∀ v, obj.GetUID (Heap.assign (h ++ [h.read obj.Object]) h.length "_id" v)
      = obj.GetUID h := fun v =>
    GetUID_congr _ _ _ (by rw [Heap.read_assign_ne _ _ _ _ _ hne, Heap.read_append_of_lt _ _ _ hlt])
  simp only [createFilterAndUpdate, Unstructured.DeepCopy, Heap.alloc, DeepCopyJSON_eq, h1, h2]
  have h3 : ∀ v, Heap.assign (h ++ [h.read obj.Object]) h.length "_id" v
      = h ++ [mapAssign (h.read obj.Object) "_id" v] := by
    intro v
    simp [Heap.assign, Heap.read]
  rw [h3, Heap.read_append_length]

theorem objCopyOf_id (h : Heap) (obj : Unstructured) :
    mapIndex (objCopyOf h obj) "_id" = some (.str (obj.GetUID h)) :=
  mapIndex_mapAssign_self _ _ _

theorem mapIndex_objCopyOf_ne (h : Heap) (obj : Unstructured) (k : String) (hk : k ≠ "_id") :
    mapIndex (objCopyOf h obj) k = mapIndex (h.read obj.Object) k :=
  mapIndex_mapAssign_ne _ _ _ _ hk

theorem createFilterAndUpdate_heap_read (h : Heap) (obj : Unstructured) (hlive : Live h obj)
    (a : Addr) (ha : a < h.length) : (createFilterAndUpdate h obj).1.read a = h.read a := by
  rw [createFilterAndUpdate_eq h obj hlive]
  exact Heap.read_append_of_lt _ _ _ ha

theorem createFilterAndUpdate_heap_length (h : Heap) (obj : Unstructured) (hlive : Live h obj) :
    (createFilterAndUpdate h obj).1.length = h.length + 1 := by
  rw [createFilterAndUpdate_eq h obj hlive]
  simp

theorem getCollection_congr (P : Packages) (c : WriteThroughClient) (h h' : Heap)
    (obj : Unstructured) (heq : h'.read obj.Object = h.read obj.Object) :
    c.getCollection P h' obj = c.getCollection P h obj := by
  simp [WriteThroughClient.getCollection, heq]

theorem objCopyOf_congr (h h' : Heap) (obj : Unstructured)
    (heq : h'.read obj.Object = h.read obj.Object) : objCopyOf h' obj = objCopyOf h obj := by
  simp [objCopyOf, heq, GetUID_congr h h' obj heq]

/-! ### The store under the driver calls -/

theorem matchesFilter_id (uid : String) (doc : Doc) :
    matchesFilter [("_id", .str uid)] doc = true ↔ doc "_id" = some (.str uid) := by
  simp [matchesFilter]

theorem applyUpdate_set (fields : Fields) (doc : Doc) :
    applyUpdate [("$set", .map fields)] doc = setFields doc fields := by
  simp [applyUpdate]

theorem setFields_idem (doc : Doc) (fields : Fields) :
    setFields (setFields doc fields) fields = setFields doc fields := by
  funext k
  simp only [setFields]
  cases mapIndex fields k <;> rfl

theorem setFields_of_some (doc : Doc) (fields : Fields) (k : String) (v : Value)
    (h : mapIndex fields k = some v) : setFields doc fields k = some v := by
  simp [setFields, h]

theorem setFields_of_none (doc : Doc) (fields : Fields) (k : String)
    (h : mapIndex fields k = none) : setFields doc fields k = doc k := by
  simp [setFields, h]

/-- A `$set` that carries `_id = uid` keeps a document among the matches of the filter
`{_id: uid}`, or puts it there. -/
theorem matches_setFields (uid : String) (doc : Doc) (fields : Fields)
    (hid : mapIndex fields "_id" = some (.str uid)) :
    matchesFilter [("_id", .str uid)] (setFields doc fields) = true :=
  (matchesFilter_id _ _).2 (setFields_of_some _ _ _ _ hid)

theorem records_nil (ns : Namespace) (uid : String) : Store.records [] ns uid = [] := rfl

theorem records_cons (e : Namespace × Doc) (db : Store) (ns : Namespace) (uid : String) :
    Store.records (e :: db) ns uid =
      if e.1 = ns ∧ matchesFilter [("_id", .str uid)] e.2 = true then
        e.2 :: Store.records db ns uid
      else Store.records db ns uid := by
  by_cases h : e.1 = ns ∧ matchesFilter [("_id", .str uid)] e.2 = true
  · simp [Store.records, List.filter_cons, h]
  · rw [if_neg h]
    have : (decide (e.1 = ns) && matchesFilter [("_id", .str uid)] e.2) = false := by
      by_cases h1 : e.1 = ns
      · simp only [h1, true_and] at h
        simp [h1, h]
      · simp [h1]
    simp [Store.records, List.filter_cons, this]

theorem records_append (db db' : Store) (ns : Namespace) (uid : String) :
    Store.records (db ++ db') ns uid = Store.records db ns uid ++ Store.records db' ns uid := by
  simp [Store.records]

theorem records_eq_nil_iff (db : Store) (ns : Namespace) (uid : String) :
    Store.records db ns uid = [] ↔
      ∀ e ∈ db, ¬ (e.1 = ns ∧ matchesFilter [("_id", .str uid)] e.2 = true) := by
  induction db with
  | nil => simp [records_nil]
  | cons e db ih =>
    rw [records_cons]
    by_cases h : e.1 = ns ∧ matchesFilter [("_id", .str uid)] e.2 = true
    · rw [if_pos h]
      simp only [List.mem_cons, forall_eq_or_imp]
      constructor
      · intro hc; cases hc
      · intro hc; exact absurd h hc.1
    · rw [if_neg h, ih]
      simp only [List.mem_cons, forall_eq_or_imp]
      exact ⟨fun hc => ⟨h, hc⟩, fun hc => hc.2⟩

/-- With unique identifiers a collection has at most one record per identifier. -/
theorem records_length_le_one (db : Store) (hids : db.UniqueIds) (ns : Namespace)
    (uid : String) : (db.records ns uid).length ≤ 1 := by
  induction db with
  | nil => simp [records_nil]
  | cons e db ih =>
    have hnd : (e.1, e.2 "_id") ∉ db.map (fun (e : Namespace × Doc) => (e.1, e.2 "_id")) ∧
        Store.UniqueIds db := by
      simpa [Store.UniqueIds] using hids
    rw [records_cons]
    by_cases h : e.1 = ns ∧ matchesFilter [("_id", .str uid)] e.2 = true
    · rw [if_pos h]
      have hnil : Store.records db ns uid = [] := by
        rw [records_eq_nil_iff]
        intro e' he' hhit
        apply hnd.1
        rw [List.mem_map]
        refine ⟨e', he', ?_⟩
        rw [(matchesFilter_id _ _).1 hhit.2, (matchesFilter_id _ _).1 h.2, hhit.1, h.1]
      simp [hnil]
    · rw [if_neg h]
      exact ih hnd.2

theorem updateFirst_eq_none (ns : Namespace) (uid : String) (update : Fields) (db : Store)
    (habs : db.records ns uid = []) :
    updateFirst ns [("_id", .str uid)] update db = none := by
  induction db with
  | nil => rfl
  | cons e db ih =>
    rw [records_cons] at habs
    by_cases h : e.1 = ns ∧ matchesFilter [("_id", .str uid)] e.2 = true
    · rw [if_pos h] at habs; cases habs
    · rw [if_neg h] at habs
      simp [updateFirst, h, ih habs]

theorem updateFirst_records_of_none (ns : Namespace) (uid : String) (update : Fields)
    (db : Store) (h : updateFirst ns [("_id", .str uid)] update db = none) :
    Store.records db ns uid = [] := by
  induction db with
  | nil => rfl
  | cons e db ih =>
    by_cases hhit : e.1 = ns ∧ matchesFilter [("_id", .str uid)] e.2 = true
    · simp [updateFirst, hhit] at h
    · simp only [updateFirst, if_neg hhit, Option.map_eq_none'] at h
      rw [records_cons, if_neg hhit]
      exact ih h

/-- What a matching `UpdateOne` with `$set` does to the records of the identifier: the
first one is the one that changes. -/
theorem updateFirst_records (ns : Namespace) (uid : String) (fields : Fields)
    (hid : mapIndex fields "_id" = some (.str uid)) (db db1 : Store)
    (h : updateFirst ns [("_id", .str uid)] [("$set", .map fields)] db = some db1) :
    ∃ d rest, Store.records db ns uid = d :: rest ∧
      Store.records db1 ns uid = setFields d fields :: rest := by
  induction db generalizing db1 with
  | nil => simp [updateFirst] at h
  | cons e db ih =>
    by_cases hhit : e.1 = ns ∧ matchesFilter [("_id", .str uid)] e.2 = true
    · simp only [updateFirst, if_pos hhit, Option.some.injEq] at h
      subst h
      refine ⟨e.2, Store.records db ns uid, ?_, ?_⟩
      · rw [records_cons, if_pos hhit]
      · rw [records_cons, applyUpdate_set, if_pos ⟨hhit.1, matches_setFields _ _ _ hid⟩]
    · simp only [updateFirst, if_neg hhit, Option.map_eq_some'] at h
      obtain ⟨db2, h2, rfl⟩ := h
      obtain ⟨d, rest, hd, hd2⟩ := ih db2 h2
      refine ⟨d, rest, ?_, ?_⟩
      · rw [records_cons, if_neg hhit, hd]
      · rw [records_cons, if_neg hhit, hd2]

/-- Sending the same matching `UpdateOne` with `$set` again changes nothing. -/
theorem updateFirst_idem (ns : Namespace) (uid : String) (fields : Fields)
    (hid : mapIndex fields "_id" = some (.str uid)) (db db1 : Store)
    (h : updateFirst ns [("_id", .str uid)] [("$set", .map fields)] db = some db1) :
    updateFirst ns [("_id", .str uid)] [("$set", .map fields)] db1 = some db1 := by
  induction db generalizing db1 with
  | nil => simp [updateFirst] at h
  | cons e db ih =>
    by_cases hhit : e.1 = ns ∧ matchesFilter [("_id", .str uid)] e.2 = true
    · simp only [updateFirst, if_pos hhit, Option.some.injEq] at h
      subst h
      have : e.1 = ns ∧ matchesFilter [("_id", .str uid)] (setFields e.2 fields) = true :=
        ⟨hhit.1, matches_setFields _ _ _ hid⟩
      simp only [updateFirst, applyUpdate_set, if_pos this, setFields_idem]
    · simp only [updateFirst, if_neg hhit, Option.map_eq_some'] at h
      obtain ⟨db2, h2, rfl⟩ := h
      simp [updateFirst, hhit, ih db2 h2]

/-- A matching update with a `$set` that carries the filter's `_id` keeps the collection
and the `_id` of every entry. -/
theorem updateFirst_keys (ns : Namespace) (uid : String) (fields : Fields)
    (hid : mapIndex fields "_id" = some (.str uid)) (db db1 : Store)
    (h : updateFirst ns [("_id", .str uid)] [("$set", .map fields)] db = some db1) :
    db1.map (fun (e : Namespace × Doc) => (e.1, e.2 "_id"))
      = db.map (fun (e : Namespace × Doc) => (e.1, e.2 "_id")) := by
  induction db generalizing db1 with
  | nil => simp [updateFirst] at h
  | cons e db ih =>
    by_cases hhit : e.1 = ns ∧ matchesFilter [("_id", .str uid)] e.2 = true
    · simp only [updateFirst, if_pos hhit, Option.some.injEq] at h
      subst h
      simp only [List.map_cons, applyUpdate_set, setFields_of_some _ _ _ _ hid,
        (matchesFilter_id _ _).1 hhit.2]
    · simp only [updateFirst, if_neg hhit, Option.map_eq_some'] at h
      obtain ⟨db2, h2, rfl⟩ := h
      simp only [List.map_cons, ih db2 h2]

theorem updateFirst_append_new (ns : Namespace) (uid : String) (update : Fields) (db : Store)
    (habs : db.records ns uid = []) (doc : Doc)
    (hdoc : matchesFilter [("_id", .str uid)] doc = true) :
    updateFirst ns [("_id", .str uid)] update (db ++ [(ns, doc)])
      = some (db ++ [(ns, applyUpdate update doc)]) := by
  induction db with
  | nil => simp [updateFirst, hdoc]
  | cons e db ih =>
    rw [records_cons] at habs
    by_cases h : e.1 = ns ∧ matchesFilter [("_id", .str uid)] e.2 = true
    · rw [if_pos h] at habs; cases habs
    · rw [if_neg h] at habs
      simp [updateFirst, h, ih habs]

theorem deleteFirst_of_absent (ns : Namespace) (uid : String) (db : Store)
    (habs : db.records ns uid = []) : deleteFirst ns [("_id", .str uid)] db = db := by
  induction db with
  | nil => rfl
  | cons e db ih =>
    rw [records_cons] at habs
    by_cases h : e.1 = ns ∧ matchesFilter [("_id", .str uid)] e.2 = true
    · rw [if_pos h] at habs; cases habs
    · rw [if_neg h] at habs
      simp [deleteFirst, h, ih habs]

theorem deleteFirst_append_new (ns : Namespace) (uid : String) (db : Store)
    (habs : db.records ns uid = []) (doc : Doc)
    (hdoc : matchesFilter [("_id", .str uid)] doc = true) :
    deleteFirst ns [("_id", .str uid)] (db ++ [(ns, doc)]) = db := by
  induction db with
  | nil => simp [deleteFirst, hdoc]
  | cons e db ih =>
    rw [records_cons] at habs
    by_cases h : e.1 = ns ∧ matchesFilter [("_id", .str uid)] e.2 = true
    · rw [if_pos h] at habs; cases habs
    · rw [if_neg h] at habs
      simp [deleteFirst, h, ih habs]

theorem deleteFirst_sublist (ns : Namespace) (filter : Fields) (db : Store) :
    List.Sublist (deleteFirst ns filter db) db := by
  induction db with
  | nil => exact List.Sublist.refl _
  | cons e db ih =>
    by_cases hhit : e.1 = ns ∧ matchesFilter filter e.2 = true
    · simp only [deleteFirst, if_pos hhit]
      exact List.sublist_cons_self _ _
    · simp only [deleteFirst, if_neg hhit]
      exact ih.cons₂ _

/-! ### The methods of the client -/

/-- The store after `Add` when the `UpdateOne` call succeeds. -/
theorem Add_db (P : Packages) (c : WriteThroughClient) (w : World) (obj : Unstructured)
    (hlive : Live w.heap obj) :
    (c.Add P none w obj).db =
      match updateFirst (c.getCollection P w.heap obj) [("_id", .str (obj.GetUID w.heap))]
          [("$set", .map (objCopyOf w.heap obj))] w.db with
      | some db1 => db1
      | none => w.db ++ [(c.getCollection P w.heap obj,
          setFields (mapIndex [("_id", .str (obj.GetUID w.heap))]) (objCopyOf w.heap obj))] := by
  have hcol : c.getCollection P (w.heap ++ [objCopyOf w.heap obj]) obj
      = c.getCollection P w.heap obj :=
    getCollection_congr _ _ _ _ _ (Heap.read_append_of_lt _ _ _ hlive)
  simp only [WriteThroughClient.Add, createFilterAndUpdate_eq w.heap obj hlive, UpdateOne,
    upsertDoc, applyUpdate_set]
  simp only [hcol]
  cases updateFirst (c.getCollection P w.heap obj) [("_id", .str (obj.GetUID w.heap))]
      [("$set", .map (objCopyOf w.heap obj))] w.db <;> simp

/-- The store after `Update`: the result of `UpdateOne` without upsert, or the store as it
was when the call fails. -/
theorem Update_db (P : Packages) (c : WriteThroughClient) (fault : Option String) (w : World)
    (obj : Unstructured) (hlive : Live w.heap obj) :
    (c.Update P fault w obj).db =
      match fault with
      | some _ => w.db
      | none =>
        match updateFirst (c.getCollection P w.heap obj) [("_id", .str (obj.GetUID w.heap))]
            [("$set", .map (objCopyOf w.heap obj))] w.db with
        | some db1 => db1
        | none => w.db := by
  have hcol : c.getCollection P (w.heap ++ [objCopyOf w.heap obj]) obj
      = c.getCollection P w.heap obj :=
    getCollection_congr _ _ _ _ _ (Heap.read_append_of_lt _ _ _ hlive)
  simp only [WriteThroughClient.Update, createFilterAndUpdate_eq w.heap obj hlive, UpdateOne]
  simp only [hcol]
  cases fault with
  | some err => simp
  | none =>
    cases updateFirst (c.getCollection P w.heap obj) [("_id", .str (obj.GetUID w.heap))]
        [("$set", .map (objCopyOf w.heap obj))] w.db <;> simp

/-- The store after `Delete`: the result of `DeleteOne`, or the store as it was when the
call fails. -/
theorem Delete_db (P : Packages) (c : WriteThroughClient) (fault : Option String) (w : World)
    (obj : Unstructured) (hlive : Live w.heap obj) :
    (c.Delete P fault w obj).db =
      match fault with
      | some _ => w.db
      | none => deleteFirst (c.getCollection P w.heap obj)
          [("_id", .str (obj.GetUID w.heap))] w.db := by
  have hcol : c.getCollection P (w.heap ++ [objCopyOf w.heap obj]) obj
      = c.getCollection P w.heap obj :=
    getCollection_congr _ _ _ _ _ (Heap.read_append_of_lt _ _ _ hlive)
  simp only [WriteThroughClient.Delete, createFilterAndUpdate_eq w.heap obj hlive, DeleteOne]
  simp only [hcol]
  cases fault <;> simp

theorem Add_heap (P : Packages) (c : WriteThroughClient) (fault : Option String) (w : World)
    (obj : Unstructured) :
    (c.Add P fault w obj).heap = (createFilterAndUpdate w.heap obj).1 := by
  simp only [WriteThroughClient.Add, UpdateOne]
  cases fault with
  | some err => simp
  | none =>
    cases updateFirst (c.getCollection P (createFilterAndUpdate w.heap obj).1 obj)
      (createFilterAndUpdate w.heap obj).2.1 (createFilterAndUpdate w.heap obj).2.2 w.db <;> simp

theorem Update_heap (P : Packages) (c : WriteThroughClient) (fault : Option String) (w : World)
    (obj : Unstructured) :
    (c.Update P fault w obj).heap = (createFilterAndUpdate w.heap obj).1 := by
  simp only [WriteThroughClient.Update, UpdateOne]
  cases fault with
  | some err => simp
  | none =>
    cases updateFirst (c.getCollection P (createFilterAndUpdate w.heap obj).1 obj)
      (createFilterAndUpdate w.heap obj).2.1 (createFilterAndUpdate w.heap obj).2.2 w.db <;> simp

theorem Delete_heap (P : Packages) (c : WriteThroughClient) (fault : Option String) (w : World)
    (obj : Unstructured) :
    (c.Delete P fault w obj).heap = (createFilterAndUpdate w.heap obj).1 := by
  simp only [WriteThroughClient.Delete, DeleteOne]
  cases fault <;> simp

theorem Add_indexes (P : Packages) (c : WriteThroughClient) (fault : Option String) (w : World)
    (obj : Unstructured) : (c.Add P fault w obj).indexes = w.indexes := by
  simp only [WriteThroughClient.Add, UpdateOne]
  cases fault with
  | some err => simp
  | none =>
    cases updateFirst (c.getCollection P (createFilterAndUpdate w.heap obj).1 obj)
      (createFilterAndUpdate w.heap obj).2.1 (createFilterAndUpdate w.heap obj).2.2 w.db <;> simp

theorem Update_indexes (P : Packages) (c : WriteThroughClient) (fault : Option String)
    (w : World) (obj : Unstructured) : (c.Update P fault w obj).indexes = w.indexes := by
  simp only [WriteThroughClient.Update, UpdateOne]
  cases fault with
  | some err => simp
  | none =>
    cases updateFirst (c.getCollection P (createFilterAndUpdate w.heap obj).1 obj)
      (createFilterAndUpdate w.heap obj).2.1 (createFilterAndUpdate w.heap obj).2.2 w.db <;> simp

theorem Delete_indexes (P : Packages) (c : WriteThroughClient) (fault : Option String)
    (w : World) (obj : Unstructured) : (c.Delete P fault w obj).indexes = w.indexes := by
  simp only [WriteThroughClient.Delete, DeleteOne]
  cases fault <;> simp

theorem Add_heap_read (P : Packages) (c : WriteThroughClient) (fault : Option String)
    (w : World) (obj : Unstructured) (hlive : Live w.heap obj) (a : Addr)
    (ha : a < w.heap.length) : (c.Add P fault w obj).heap.read a = w.heap.read a := by
  rw [Add_heap]; exact createFilterAndUpdate_heap_read _ _ hlive a ha

theorem Delete_heap_read (P : Packages) (c : WriteThroughClient) (fault : Option String)
    (w : World) (obj : Unstructured) (hlive : Live w.heap obj) (a : Addr)
    (ha : a < w.heap.length) : (c.Delete P fault w obj).heap.read a = w.heap.read a := by
  rw [Delete_heap]; exact createFilterAndUpdate_heap_read _ _ hlive a ha

theorem Add_live (P : Packages) (c : WriteThroughClient) (fault : Option String)
    (w : World) (obj other : Unstructured) (hlive : Live w.heap obj)
    (hother : Live w.heap other) : Live (c.Add P fault w obj).heap other := by
  have hlen := createFilterAndUpdate_heap_length _ _ hlive
  have ho : other.Object < w.heap.length := hother
  show other.Object < (c.Add P fault w obj).heap.length
  rw [Add_heap, hlen]; exact Nat.lt_succ_of_lt ho

theorem Delete_live (P : Packages) (c : WriteThroughClient) (fault : Option String)
    (w : World) (obj other : Unstructured) (hlive : Live w.heap obj)
    (hother : Live w.heap other) : Live (c.Delete P fault w obj).heap other := by
  have hlen := createFilterAndUpdate_heap_length _ _ hlive
  have ho : other.Object < w.heap.length := hother
  show other.Object < (c.Delete P fault w obj).heap.length
  rw [Delete_heap, hlen]; exact Nat.lt_succ_of_lt ho

/-- The store after a successful `Add` on a collection without a record of the resource:
the record is appended. -/
theorem Add_db_of_absent (P : Packages) (c : WriteThroughClient) (w : World)
    (obj : Unstructured) (hlive : Live w.heap obj)
    (habs : w.db.records (c.getCollection P w.heap obj) (obj.GetUID w.heap) = []) :
    (c.Add P none w obj).db = w.db ++ [(c.getCollection P w.heap obj,
      setFields (mapIndex [("_id", .str (obj.GetUID w.heap))]) (objCopyOf w.heap obj))] := by
  rw [Add_db P c w obj hlive, updateFirst_eq_none _ _ _ _ habs]

/-- The record of a resource after a successful `Add`, in a store with unique
identifiers: one record, made of the `$set` of `objCopy` over what was there. -/
theorem Add_records (P : Packages) (c : WriteThroughClient) (w : World) (obj : Unstructured)
    (hlive : Live w.heap obj) (hids : w.db.UniqueIds) :
    ∃ d0, (c.Add P none w obj).db.records (c.getCollection P w.heap obj) (obj.GetUID w.heap)
      = [setFields d0 (objCopyOf w.heap obj)] := by
  have hid := objCopyOf_id w.heap obj
  rw [Add_db P c w obj hlive]
  cases hu : updateFirst (c.getCollection P w.heap obj) [("_id", .str (obj.GetUID w.heap))]
      [("$set", .map (objCopyOf w.heap obj))] w.db with
  | some db1 =>
    simp only []
    obtain ⟨d, rest, hd, hd1⟩ := updateFirst_records _ _ _ hid _ _ hu
    have hle := records_length_le_one w.db hids (c.getCollection P w.heap obj)
      (obj.GetUID w.heap)
    rw [hd] at hle
    have hrest : rest = [] := by
      cases rest with
      | nil => rfl
      | cons x xs => simp at hle
    exact ⟨d, by rw [hd1, hrest]⟩
  | none =>
    simp only []
    refine ⟨mapIndex [("_id", .str (obj.GetUID w.heap))], ?_⟩
    rw [records_append, updateFirst_records_of_none _ _ _ _ hu, records_cons,
      if_pos ⟨rfl, matches_setFields _ _ _ hid⟩, records_nil]
    rfl

/-- Unique identifiers are kept by a successful `Add`. -/
theorem Add_uniqueIds (P : Packages) (c : WriteThroughClient) (w : World) (obj : Unstructured)
    (hlive : Live w.heap obj) (hids : w.db.UniqueIds) : (c.Add P none w obj).db.UniqueIds := by
  have hid := objCopyOf_id w.heap obj
  rw [Add_db P c w obj hlive]
  cases hu : updateFirst (c.getCollection P w.heap obj) [("_id", .str (obj.GetUID w.heap))]
      [("$set", .map (objCopyOf w.heap obj))] w.db with
  | some db1 =>
    simp only []
    unfold Store.UniqueIds
    rw [updateFirst_keys _ _ _ hid _ _ hu]
    exact hids
  | none =>
    simp only []
    have habs := (records_eq_nil_iff _ _ _).1 (updateFirst_records_of_none _ _ _ _ hu)
    unfold Store.UniqueIds at hids ⊢
    rw [List.map_append, List.nodup_append]
    refine ⟨hids, by simp, ?_⟩
    intro k hk hk'
    simp only [List.map_cons, List.map_nil, List.mem_singleton] at hk'
    rw [List.mem_map] at hk
    obtain ⟨e, he, rfl⟩ := hk
    simp only [Prod.mk.injEq] at hk'
    apply habs e he
    refine ⟨hk'.1, (matchesFilter_id _ _).2 ?_⟩
    rw [hk'.2, setFields_of_some _ _ _ _ hid]

/-- Unique identifiers are kept by `Update`. -/
theorem Update_uniqueIds (P : Packages) (c : WriteThroughClient) (fault : Option String)
    (w : World) (obj : Unstructured) (hlive : Live w.heap obj) (hids : w.db.UniqueIds) :
    (c.Update P fault w obj).db.UniqueIds := by
  have hid := objCopyOf_id w.heap obj
  rw [Update_db P c fault w obj hlive]
  cases fault with
  | some err => exact hids
  | none =>
    simp only []
    cases hu : updateFirst (c.getCollection P w.heap obj) [("_id", .str (obj.GetUID w.heap))]
        [("$set", .map (objCopyOf w.heap obj))] w.db with
    | some db1 =>
      simp only []
      unfold Store.UniqueIds
      rw [updateFirst_keys _ _ _ hid _ _ hu]
      exact hids
    | none => exact hids

/-- Unique identifiers are kept by `Delete`. -/
theorem Delete_uniqueIds (P : Packages) (c : WriteThroughClient) (fault : Option String)
    (w : World) (obj : Unstructured) (hlive : Live w.heap obj) (hids : w.db.UniqueIds) :
    (c.Delete P fault w obj).db.UniqueIds := by
  rw [Delete_db P c fault w obj hlive]
  cases fault with
  | some err => exact hids
  | none =>
    exact List.Nodup.sublist ((deleteFirst_sublist _ _ _).map _) hids

/-! ### Collection names -/

theorem char_le_iff (c d : Char) : c ≤ d ↔ c.toNat ≤ d.toNat := by
  rw [Char.le_def, UInt32.le_def, BitVec.le_def]
  rfl

theorem toNat_ofNat_of_lt (n : Nat) (h : n < 55296) : (Char.ofNat n).toNat = n := by
  have hv : n.isValidChar := Or.inl h
  simp only [Char.ofNat, hv, dite_true, Char.ofNatAux, Char.toNat, UInt32.toNat]
  simp

theorem scanASCII_true (l : List Char) (hu hu' : Bool) (h : scanASCII l hu = (true, hu')) :
    (∀ c ∈ l, c.toNat ≤ 127) ∧ hu' = (hu || l.any fun c => decide ('A' ≤ c ∧ c ≤ 'Z')) := by
  induction l generalizing hu with
  | nil => simp [scanASCII] at h; simp [h]
  | cons c rest ih =>
    by_cases hc : c.toNat ≥ 128
    · simp [scanASCII, hc] at h
    · simp only [scanASCII, if_neg hc] at h
      obtain ⟨h1, h2⟩ := ih _ h
      refine ⟨?_, ?_⟩
      · intro x hx
        rcases List.mem_cons.1 hx with rfl | hx
        · omega
        · exact h1 x hx
      · rw [h2, List.any_cons, Bool.or_assoc]

theorem lowerASCII_eq (T : UnicodeTables) (l b pending : List Char)
    (h : ∀ c ∈ l, c.toNat ≤ 127) :
    lowerASCII l b pending = b ++ pending ++ l.map (unicodeToLower T) := by
  induction l generalizing b pending with
  | nil => simp [lowerASCII]
  | cons c rest ih =>
    have hc : c.toNat ≤ 127 := h c (List.mem_cons_self _ _)
    have hrest : ∀ x ∈ rest, x.toNat ≤ 127 := fun x hx => h x (List.mem_cons_of_mem _ hx)
    by_cases hup : 'A' ≤ c ∧ c ≤ 'Z'
    · simp [lowerASCII, hup, ih _ _ hrest, unicodeToLower, hc]
    · simp [lowerASCII, hup, ih _ _ hrest, unicodeToLower, hc]

theorem map_unicodeToLower_of_no_capital (T : UnicodeTables) (l : List Char)
    (h : ∀ c ∈ l, c.toNat ≤ 127)
    (hno : (l.any fun c => decide ('A' ≤ c ∧ c ≤ 'Z')) = false) :
    l.map (unicodeToLower T) = l := by
  induction l with
  | nil => rfl
  | cons c rest ih =>
    have hc : c.toNat ≤ 127 := h c (List.mem_cons_self _ _)
    have hrest : ∀ x ∈ rest, x.toNat ≤ 127 := fun x hx => h x (List.mem_cons_of_mem _ hx)
    rw [List.any_cons, Bool.or_eq_false_iff] at hno
    have hup : ¬ ('A' ≤ c ∧ c ≤ 'Z') := by simpa using hno.1
    rw [List.map_cons, ih hrest hno.2]
    simp [unicodeToLower, hc, hup]

/-- The three branches of `strings.ToLower` agree: the result is the string lowered rune
by rune with `unicode.ToLower`. -/
theorem ToLower_data (T : UnicodeTables) (s : String) :
    (ToLower T s).data = s.data.map (unicodeToLower T) := by
  unfold ToLower
  cases hs : scanASCII s.data false with
  | mk isASCII hasUpper =>
    cases isASCII with
    | false => rfl
    | true =>
      obtain ⟨h1, h2⟩ := scanASCII_true _ _ _ hs
      cases hasUpper with
      | false =>
        simp only []
        rw [map_unicodeToLower_of_no_capital T _ h1 (by simpa using h2.symm)]
      | true =>
        simp only []
        rw [lowerASCII_eq T _ _ _ h1]
        simp

/-- An ASCII capital is moved to the small letter 32 code points above it. -/
theorem unicodeToLower_capital (T : UnicodeTables) (c : Char) (h : 'A' ≤ c ∧ c ≤ 'Z') :
    (unicodeToLower T c).toNat = c.toNat + 32 ∧
    'a' ≤ unicodeToLower T c ∧ unicodeToLower T c ≤ 'z' := by
  have h1 : 'A'.toNat = 65 := rfl
  have h2 : 'Z'.toNat = 90 := rfl
  have h3 : 'a'.toNat = 97 := rfl
  have h4 : 'z'.toNat = 122 := rfl
  have hn := h
  rw [char_le_iff, char_le_iff, h1, h2] at hn
  have hc : c.toNat ≤ 127 := by omega
  have hv : (unicodeToLower T c).toNat = c.toNat + 32 := by
    simp only [unicodeToLower, hc, if_true, if_pos h, h1, h3]
    exact toNat_ofNat_of_lt _ (by omega)
  refine ⟨hv, ?_, ?_⟩
  · rw [char_le_iff, hv, h3]; omega
  · rw [char_le_iff, hv, h4]; omega

theorem unicodeToLower_ascii_other (T : UnicodeTables) (c : Char) (hc : c.toNat ≤ 127)
    (h : ¬ ('A' ≤ c ∧ c ≤ 'Z')) : unicodeToLower T c = c := by
  simp [unicodeToLower, hc, h]

theorem unicodeToLower_above (T : UnicodeTables) (c : Char) (hc : 127 < c.toNat) :
    unicodeToLower T c = T.toLower c := by
  have : ¬ c.toNat ≤ 127 := by omega
  simp [unicodeToLower, this]

/-- The lower case of an ASCII rune is an ASCII rune that is not a capital. -/
theorem unicodeToLower_ascii_not_upper (T : UnicodeTables) (c : Char) (hc : c.toNat ≤ 127) :
    unicodeIsUpper T (unicodeToLower T c) = false := by
  by_cases h : 'A' ≤ c ∧ c ≤ 'Z'
  · obtain ⟨hv, ha, _⟩ := unicodeToLower_capital T c h
    have h1 : 'Z'.toNat = 90 := rfl
    have h3 : 'a'.toNat = 97 := rfl
    rw [char_le_iff, h3] at ha
    have hz := h.2
    rw [char_le_iff, h1] at hz
    have hle : (unicodeToLower T c).toNat ≤ 127 := by omega
    have hnot : ¬ ('A' ≤ unicodeToLower T c ∧ unicodeToLower T c ≤ 'Z') := by
      intro hu
      have := hu.2
      rw [char_le_iff, h1] at this
      omega
    simp [unicodeIsUpper, hle, hnot]
  · rw [unicodeToLower_ascii_other T c hc h]
    simp [unicodeIsUpper, hc, h]

theorem colName_data (T : UnicodeTables) (r : GroupVersionResource) :
    (colName T r).data = (ToLower T r.Resource).data ++
      '.' :: ((ToLower T r.Group).data ++ '.' :: (ToLower T r.Version).data) := by
  have hdot : unicodeToLower T '.' = '.' :=
    unicodeToLower_ascii_other T '.' (by decide) (by decide)
  have hd : (".": String).data = ['.'] := rfl
  simp [colName, ToLower_data, String.data_append, hd, hdot]

/-- Two lists cut at their first separator agree piece by piece. -/
theorem split_at_first {α : Type} (s : α) (a a' x x' : List α) (ha : s ∉ a) (ha' : s ∉ a')
    (h : a ++ s :: x = a' ++ s :: x') : a = a' ∧ x = x' := by
  induction a generalizing a' with
  | nil =>
    cases a' with
    | nil => simpa using h
    | cons b bs =>
      simp only [List.nil_append, List.cons_append, List.cons.injEq] at h
      exact absurd (h.1 ▸ List.mem_cons_self _ _) ha'
  | cons b bs ih =>
    cases a' with
    | nil =>
      simp only [List.nil_append, List.cons_append, List.cons.injEq] at h
      exact absurd (h.1 ▸ List.mem_cons_self _ _) ha
    | cons b' bs' =>
      simp only [List.cons_append, List.cons.injEq] at h
      obtain ⟨hb, ht⟩ := h
      have := ih bs' (fun hm => ha (List.mem_cons_of_mem _ hm))
        (fun hm => ha' (List.mem_cons_of_mem _ hm)) ht
      exact ⟨by rw [hb, this.1], this.2⟩

/-- Two lists cut at their last separator agree piece by piece. -/
theorem split_at_last {α : Type} (s : α) (x x' b b' : List α) (hb : s ∉ b) (hb' : s ∉ b')
    (h : x ++ s :: b = x' ++ s :: b') : x = x' ∧ b = b' := by
  have hr : b.reverse ++ s :: x.reverse = b'.reverse ++ s :: x'.reverse := by
    have := congrArg List.reverse h
    simpa using this
  have := split_at_first s b.reverse b'.reverse x.reverse x'.reverse
    (by simpa using hb) (by simpa using hb') hr
  exact ⟨List.reverse_injective this.2, List.reverse_injective this.1⟩

/-! ### The loop of `EnsureIndexes` -/

/-- The `CreateOne` call that `EnsureIndexes` makes for a spec. -/
theorem ensureIndex_calls (P : Packages) (c : WriteThroughClient) (fault : Option String)
    (w : World) (index : MongoIndex) :
    (c.ensureIndex P fault w index).calls = w.calls ++
      [.createIndex { database := c.config.Database,
                      collection := colName P.Unicode P.GetGroupVersionResource }
        (P.ToIndexModel index)] := by
  cases fault <;> simp [WriteThroughClient.ensureIndex, CreateOne]

/-- The event that `EnsureIndexes` logs for a spec: an error with the cause when the call
fails, a debug event when it succeeds. -/
theorem ensureIndex_log (P : Packages) (c : WriteThroughClient) (fault : Option String)
    (w : World) (index : MongoIndex) :
    (c.ensureIndex P fault w index).log.map (fun e => (e.level, e.err, e.msg)) =
      w.log.map (fun e => (e.level, e.err, e.msg)) ++
        [match fault with
          | some err => (Level.error, some err, "Could not create index")
          | none => (Level.debug, none, "Created index")] := by
  cases fault <;> simp [WriteThroughClient.ensureIndex, CreateOne]

theorem ensureLoop_calls (P : Packages) (c : WriteThroughClient) (indexes : List MongoIndex)
    (faults : List (Option String)) (w : World) :
    (c.ensureLoop P indexes faults w).calls = w.calls ++
      indexes.map fun index =>
        DriverCall.createIndex { database := c.config.Database,
                                 collection := colName P.Unicode P.GetGroupVersionResource }
          (P.ToIndexModel index) := by
  induction indexes generalizing faults w with
  | nil => simp [WriteThroughClient.ensureLoop]
  | cons index rest ih =>
    rw [WriteThroughClient.ensureLoop, ih, ensureIndex_calls]
    simp

theorem ensureLoop_log (P : Packages) (c : WriteThroughClient) (indexes : List MongoIndex)
    (faults : List (Option String)) (w : World) :
    (c.ensureLoop P indexes faults w).log.map (fun e => (e.level, e.err, e.msg)) =
      w.log.map (fun e => (e.level, e.err, e.msg)) ++
        (List.range indexes.length).map fun i =>
          match faults.getD i none with
          | some err => (Level.error, some err, "Could not create index")
          | none => (Level.debug, none, "Created index") := by
  induction indexes generalizing faults w with
  | nil => simp [WriteThroughClient.ensureLoop]
  | cons index rest ih =>
    rw [WriteThroughClient.ensureLoop, ih, ensureIndex_log, List.length_cons,
      List.range_succ_eq_map, List.map_cons, List.map_map, List.append_assoc]
    have hhead : faults.headD none = faults.getD 0 none := by cases faults <;> rfl
    have htail : ∀ i, faults.tail.getD i none = faults.getD (i + 1) none := by
      intro i; cases faults <;> simp
    simp only [hhead, List.singleton_append, Function.comp_def, htail]

/-! ## The claims -/

/-- C1: with unique identifiers in the store and both `UpdateOne` calls succeeding, a second
`Add` of the same resource leaves the documents and the indexes that the first `Add` left,
that store holds exactly one record with the resource's UID as `_id` in the resource's
collection, and the first `Add` leaves the resource's own fields as they were. -/
theorem add_twice_same_store (P : Packages) (c : WriteThroughClient) (w : World)
    (obj : Unstructured) (hlive : Live w.heap obj) (hids : w.db.UniqueIds) :
    (c.Add P none (c.Add P none w obj) obj).db = (c.Add P none w obj).db ∧
    (c.Add P none (c.Add P none w obj) obj).indexes = (c.Add P none w obj).indexes ∧
    ((c.Add P none w obj).db.records (c.getCollection P w.heap obj)
      (obj.GetUID w.heap)).length = 1 ∧
    (c.Add P none w obj).heap.read obj.Object = w.heap.read obj.Object := by
  have hread := Add_heap_read P c none w obj hlive obj.Object hlive
  have hlive1 := Add_live P c none w obj obj hlive hlive
  have hid := objCopyOf_id w.heap obj
  refine ⟨?_, Add_indexes P c none _ obj, ?_, hread⟩
  · rw [Add_db P c (c.Add P none w obj) obj hlive1, getCollection_congr P c _ _ obj hread,
      GetUID_congr _ _ obj hread, objCopyOf_congr _ _ obj hread, Add_db P c w obj hlive]
    cases hu : updateFirst (c.getCollection P w.heap obj) [("_id", .str (obj.GetUID w.heap))]
        [("$set", .map (objCopyOf w.heap obj))] w.db with
    | some db1 =>
      simp only []
      rw [updateFirst_idem _ _ _ hid _ _ hu]
    | none =>
      simp only []
      rw [updateFirst_append_new _ _ _ _ (updateFirst_records_of_none _ _ _ _ hu) _
        (matches_setFields _ _ _ hid), applyUpdate_set, setFields_idem]
  · rw [Add_db P c w obj hlive]
    cases hu : updateFirst (c.getCollection P w.heap obj) [("_id", .str (obj.GetUID w.heap))]
        [("$set", .map (objCopyOf w.heap obj))] w.db with
    | some db1 =>
      simp only []
      obtain ⟨d, rest, hd, hd1⟩ := updateFirst_records _ _ _ hid _ _ hu
      have hle := records_length_le_one w.db hids (c.getCollection P w.heap obj)
        (obj.GetUID w.heap)
      rw [hd] at hle
      rw [hd1]
      simpa using hle
    | none =>
      simp only []
      rw [records_append, updateFirst_records_of_none _ _ _ _ hu, records_cons,
        if_pos ⟨rfl, matches_setFields _ _ _ hid⟩, records_nil]
      rfl

/-- Witness of C1 on the example world: the Widget is added twice next to the record of
another Widget. -/
theorem add_twice_same_store_witness :
    Live exWorld.heap { Object := 0 } ∧ exWorld.db.UniqueIds ∧
    (exClient.Add exPackages none (exClient.Add exPackages none exWorld { Object := 0 })
      { Object := 0 }).db = (exClient.Add exPackages none exWorld { Object := 0 }).db ∧
    (exClient.Add exPackages none (exClient.Add exPackages none exWorld { Object := 0 })
      { Object := 0 }).indexes
      = (exClient.Add exPackages none exWorld { Object := 0 }).indexes ∧
    ((exClient.Add exPackages none exWorld { Object := 0 }).db.records
      (exClient.getCollection exPackages exWorld.heap { Object := 0 })
      (Unstructured.GetUID exWorld.heap { Object := 0 })).length = 1 ∧
    (exClient.Add exPackages none exWorld { Object := 0 }).heap.read 0 = exWorld.heap.read 0 :=
  ⟨by decide, by decide,
    add_twice_same_store exPackages exClient exWorld { Object := 0 } (by decide) (by decide)⟩

/-- C2: when the resource's collection holds no record with the resource's UID as `_id`,
`Update` leaves the documents and the indexes of the store as they were, whether its
`UpdateOne` call succeeds or fails; the one driver call it makes is an `UpdateOne` with
upsert disabled. -/
theorem update_absent_unchanged (P : Packages) (c : WriteThroughClient)
    (fault : Option String) (w : World) (obj : Unstructured) (hlive : Live w.heap obj)
    (habs : w.db.records (c.getCollection P w.heap obj) (obj.GetUID w.heap) = []) :
    (c.Update P fault w obj).db = w.db ∧
    (c.Update P fault w obj).indexes = w.indexes ∧
    (c.Update P fault w obj).calls = w.calls ++
      [.updateOne (c.getCollection P w.heap obj) [("_id", .str (obj.GetUID w.heap))]
        [("$set", .map (objCopyOf w.heap obj))] false] := by
  refine ⟨?_, Update_indexes P c fault w obj, ?_⟩
  · rw [Update_db P c fault w obj hlive, updateFirst_eq_none _ _ _ _ habs]
    cases fault <;> rfl
  · have hcol : c.getCollection P (w.heap ++ [objCopyOf w.heap obj]) obj
        = c.getCollection P w.heap obj :=
      getCollection_congr _ _ _ _ _ (Heap.read_append_of_lt _ _ _ hlive)
    simp only [WriteThroughClient.Update, createFilterAndUpdate_eq w.heap obj hlive, UpdateOne,
      hcol]
    cases fault with
    | some err => rfl
    | none =>
      cases updateFirst (c.getCollection P w.heap obj) [("_id", .str (obj.GetUID w.heap))]
        [("$set", .map (objCopyOf w.heap obj))] w.db <;> rfl

/-- Witness of C2 on the example world, where the Widget has no record yet. -/
theorem update_absent_unchanged_witness :
    Live exWorld.heap { Object := 1 } ∧
    exWorld.db.records (exClient.getCollection exPackages exWorld.heap { Object := 1 })
      (Unstructured.GetUID exWorld.heap { Object := 1 }) = [] ∧
    (exClient.Update exPackages none exWorld { Object := 1 }).db = exWorld.db :=
  ⟨by decide, rfl,
    (update_absent_unchanged exPackages exClient none exWorld { Object := 1 }
      (by decide) rfl).1⟩

/-- C3: when the resource's collection holds no record with the resource's UID before the
`Add`, then after `Add` there is exactly one, after `Delete` there is none, and after the
`Update` that follows there is still none (all three driver calls succeeding); the store
is then the one before the `Add`. -/
theorem add_delete_update_absent (P : Packages) (c : WriteThroughClient) (w : World)
    (obj : Unstructured) (hlive : Live w.heap obj)
    (habs : w.db.records (c.getCollection P w.heap obj) (obj.GetUID w.heap) = []) :
    ((c.Add P none w obj).db.records (c.getCollection P w.heap obj)
      (obj.GetUID w.heap)).length = 1 ∧
    (c.Delete P none (c.Add P none w obj) obj).db.records (c.getCollection P w.heap obj)
      (obj.GetUID w.heap) = [] ∧
    (c.Update P none (c.Delete P none (c.Add P none w obj) obj) obj).db.records
      (c.getCollection P w.heap obj) (obj.GetUID w.heap) = [] ∧
    (c.Update P none (c.Delete P none (c.Add P none w obj) obj) obj).db = w.db := by
  have hid := objCopyOf_id w.heap obj
  have hread1 := Add_heap_read P c none w obj hlive obj.Object hlive
  have hlive1 := Add_live P c none w obj obj hlive hlive
  have hread2 := Delete_heap_read P c none _ obj hlive1 obj.Object hlive1
  have hlive2 := Delete_live P c none _ obj obj hlive1 hlive1
  rw [hread1] at hread2
  have hdb1 := Add_db_of_absent P c w obj hlive habs
  have hdb2 : (c.Delete P none (c.Add P none w obj) obj).db = w.db := by
    rw [Delete_db P c none _ obj hlive1, getCollection_congr P c _ _ obj hread1,
      GetUID_congr _ _ obj hread1, hdb1]
    exact deleteFirst_append_new _ _ _ habs _ (matches_setFields _ _ _ hid)
  have hdb3 : (c.Update P none (c.Delete P none (c.Add P none w obj) obj) obj).db = w.db := by
    rw [Update_db P c none _ obj hlive2, getCollection_congr P c _ _ obj hread2,
      GetUID_congr _ _ obj hread2, objCopyOf_congr _ _ obj hread2, hdb2,
      updateFirst_eq_none _ _ _ _ habs]
  refine ⟨?_, ?_, ?_, hdb3⟩
  · rw [hdb1, records_append, habs, records_cons,
      if_pos ⟨rfl, matches_setFields _ _ _ hid⟩, records_nil]
    rfl
  · rw [hdb2]; exact habs
  · rw [hdb3]; exact habs

/-- Witness of C3 on the example world. -/
theorem add_delete_update_absent_witness :
    Live exWorld.heap { Object := 0 } ∧
    exWorld.db.records (exClient.getCollection exPackages exWorld.heap { Object := 0 })
      (Unstructured.GetUID exWorld.heap { Object := 0 }) = [] ∧
    (exClient.Update exPackages none (exClient.Delete exPackages none
      (exClient.Add exPackages none exWorld { Object := 0 }) { Object := 0 })
      { Object := 0 }).db.records
      (exClient.getCollection exPackages exWorld.heap { Object := 0 })
      (Unstructured.GetUID exWorld.heap { Object := 0 }) = [] :=
  ⟨by decide, rfl,
    (add_delete_update_absent exPackages exClient exWorld { Object := 0 } (by decide) rfl).2.2.1⟩

/-- C4: when the resource's collection holds no record with the resource's UID as `_id`,
a `Delete` whose `DeleteOne` call succeeds leaves the documents and the indexes of the
store as they were and logs the debug event of a completed deletion, with no error; a
second `Delete` leaves the same store. -/
theorem delete_absent_unchanged (P : Packages) (c : WriteThroughClient) (w : World)
    (obj : Unstructured) (hlive : Live w.heap obj)
    (habs : w.db.records (c.getCollection P w.heap obj) (obj.GetUID w.heap) = []) :
    (c.Delete P none w obj).db = w.db ∧
    (c.Delete P none w obj).indexes = w.indexes ∧
    (c.Delete P none w obj).log = w.log ++
      [{ level := .debug, fields := P.CreateFieldsForOp "wt-delete" (w.heap.read obj.Object),
         err := none, msg := "Object deleted from MongoDB" }] ∧
    (c.Delete P none (c.Delete P none w obj) obj).db = (c.Delete P none w obj).db := by
  have hdb : (c.Delete P none w obj).db = w.db := by
    rw [Delete_db P c none w obj hlive]
    exact deleteFirst_of_absent _ _ _ habs
  have hread := Delete_heap_read P c none w obj hlive obj.Object hlive
  have hlive1 := Delete_live P c none w obj obj hlive hlive
  refine ⟨hdb, Delete_indexes P c none w obj, ?_, ?_⟩
  · simp only [WriteThroughClient.Delete, createFilterAndUpdate_eq w.heap obj hlive, DeleteOne]
    rw [Heap.read_append_of_lt _ _ _ hlive]
  · rw [Delete_db P c none _ obj hlive1, getCollection_congr P c _ _ obj hread,
      GetUID_congr _ _ obj hread, hdb]
    exact deleteFirst_of_absent _ _ _ habs

/-- Witness of C4 on the example world. -/
theorem delete_absent_unchanged_witness :
    Live exWorld.heap { Object := 0 } ∧
    exWorld.db.records (exClient.getCollection exPackages exWorld.heap { Object := 0 })
      (Unstructured.GetUID exWorld.heap { Object := 0 }) = [] ∧
    (exClient.Delete exPackages none exWorld { Object := 0 }).db = exWorld.db ∧
    (exClient.Delete exPackages none exWorld { Object := 0 }).indexes = exWorld.indexes ∧
    (exClient.Delete exPackages none exWorld { Object := 0 }).log = exWorld.log ++
      [{ level := .debug,
         fields := exPackages.CreateFieldsForOp "wt-delete" (exWorld.heap.read 0),
         err := none, msg := "Object deleted from MongoDB" }] ∧
    (exClient.Delete exPackages none (exClient.Delete exPackages none exWorld { Object := 0 })
      { Object := 0 }).db = (exClient.Delete exPackages none exWorld { Object := 0 }).db :=
  ⟨by decide, rfl,
    delete_absent_unchanged exPackages exClient exWorld { Object := 0 } (by decide) rfl⟩

/-- C5 fails as stated: on the example world, `Add` of the Widget with a `status` field
followed by `Update` with the Widget that has none leaves one record for the UID, and that
record still has the `status` of the first Widget, which the second Widget lacks. -/
theorem add_update_keeps_old_field :
    Live exWorld.heap { Object := 0 } ∧ Live exWorld.heap { Object := 1 } ∧
    Unstructured.GetUID exWorld.heap { Object := 1 }
      = Unstructured.GetUID exWorld.heap { Object := 0 } ∧
    exClient.getCollection exPackages exWorld.heap { Object := 1 }
      = exClient.getCollection exPackages exWorld.heap { Object := 0 } ∧
    ((exClient.Update exPackages none (exClient.Add exPackages none exWorld { Object := 0 })
      { Object := 1 }).db.records { database := "horizon", collection := "widget.example.com/v1" }
      "abc123").map (fun d => d "status") = [some (.map [("phase", .str "Ready")])] ∧
    mapIndex (exWorld.heap.read 1) "status" = none ∧
    mapIndex (objCopyOf exWorld.heap { Object := 1 }) "status" = none := by
  decide

/-- C5, as the code has it: after `Add(R1)` and `Update(R2)` for the same UID and
collection (both driver calls succeeding, unique identifiers in the store) there is one
record for the UID; it maps `_id` to the UID and every top-level key of R2 to R2's value,
and a key that R2 lacks keeps the value the record had after the `Add`, which for a key of
R1 is R1's value. -/
theorem add_update_merges (P : Packages) (c : WriteThroughClient) (w : World)
    (R1 R2 : Unstructured) (h1 : Live w.heap R1) (h2 : Live w.heap R2)
    (huid : R2.GetUID w.heap = R1.GetUID w.heap)
    (hcol : c.getCollection P w.heap R2 = c.getCollection P w.heap R1)
    (hids : w.db.UniqueIds) :
    ∃ d1 d2 : Doc,
      (c.Add P none w R1).db.records (c.getCollection P w.heap R1) (R1.GetUID w.heap) = [d1] ∧
      (c.Update P none (c.Add P none w R1) R2).db.records (c.getCollection P w.heap R1)
        (R1.GetUID w.heap) = [d2] ∧
      d2 "_id" = some (.str (R1.GetUID w.heap)) ∧
      (∀ k v, k ≠ "_id" → mapIndex (w.heap.read R2.Object) k = some v → d2 k = some v) ∧
      (∀ k, k ≠ "_id" → mapIndex (w.heap.read R2.Object) k = none → d2 k = d1 k) ∧
      (∀ k v, k ≠ "_id" → mapIndex (w.heap.read R1.Object) k = some v → d1 k = some v) := by
  obtain ⟨d0, hd1⟩ := Add_records P c w R1 h1 hids
  have hread := Add_heap_read P c none w R1 h1 R2.Object h2
  have hlive := Add_live P c none w R1 R2 h1 h2
  have hid2 : mapIndex (objCopyOf w.heap R2) "_id" = some (.str (R1.GetUID w.heap)) := by
    rw [objCopyOf_id, huid]
  have hdb : ∃ db2, updateFirst (c.getCollection P w.heap R1)
      [("_id", .str (R1.GetUID w.heap))] [("$set", .map (objCopyOf w.heap R2))]
      (c.Add P none w R1).db = some db2 := by
    cases hu : updateFirst (c.getCollection P w.heap R1)
        [("_id", .str (R1.GetUID w.heap))] [("$set", .map (objCopyOf w.heap R2))]
        (c.Add P none w R1).db with
    | some db2 => exact ⟨db2, rfl⟩
    | none =>
      have := updateFirst_records_of_none _ _ _ _ hu
      rw [hd1] at this
      cases this
  obtain ⟨db2, hu⟩ := hdb
  obtain ⟨d, rest, hd, hd2⟩ := updateFirst_records _ _ _ hid2 _ _ hu
  rw [hd1] at hd
  simp only [List.cons.injEq] at hd
  obtain ⟨rfl, rfl⟩ := hd
  refine ⟨_, setFields (setFields d0 (objCopyOf w.heap R1)) (objCopyOf w.heap R2), hd1, ?_,
    ?_, ?_, ?_, ?_⟩
  · rw [Update_db P c none _ R2 hlive, getCollection_congr P c _ _ R2 hread,
      GetUID_congr _ _ R2 hread, objCopyOf_congr _ _ R2 hread, hcol, huid]
    simp only [hu]
    exact hd2
  · exact setFields_of_some _ _ _ _ hid2
  · intro k v hk hv
    exact setFields_of_some _ _ _ _ (by rw [mapIndex_objCopyOf_ne _ _ _ hk]; exact hv)
  · intro k hk hv
    exact setFields_of_none _ _ _ (by rw [mapIndex_objCopyOf_ne _ _ _ hk]; exact hv)
  · intro k v hk hv
    exact setFields_of_some _ _ _ _ (by rw [mapIndex_objCopyOf_ne _ _ _ hk]; exact hv)

/-- Witness of the amended C5 on the example world. -/
theorem add_update_merges_witness :
    Live exWorld.heap { Object := 0 } ∧ Live exWorld.heap { Object := 1 } ∧
    Unstructured.GetUID exWorld.heap { Object := 1 }
      = Unstructured.GetUID exWorld.heap { Object := 0 } ∧
    exClient.getCollection exPackages exWorld.heap { Object := 1 }
      = exClient.getCollection exPackages exWorld.heap { Object := 0 } ∧
    exWorld.db.UniqueIds ∧
    ∃ d1 d2 : Doc,
      (exClient.Add exPackages none exWorld { Object := 0 }).db.records
        (exClient.getCollection exPackages exWorld.heap { Object := 0 })
        (Unstructured.GetUID exWorld.heap { Object := 0 }) = [d1] ∧
      (exClient.Update exPackages none (exClient.Add exPackages none exWorld { Object := 0 })
        { Object := 1 }).db.records
        (exClient.getCollection exPackages exWorld.heap { Object := 0 })
        (Unstructured.GetUID exWorld.heap { Object := 0 }) = [d2] ∧
      d2 "_id" = some (.str (Unstructured.GetUID exWorld.heap { Object := 0 })) ∧
      (∀ k v, k ≠ "_id" → mapIndex (exWorld.heap.read 1) k = some v → d2 k = some v) ∧
      (∀ k, k ≠ "_id" → mapIndex (exWorld.heap.read 1) k = none → d2 k = d1 k) ∧
      (∀ k v, k ≠ "_id" → mapIndex (exWorld.heap.read 0) k = some v → d1 k = some v) :=
  ⟨by decide, by decide, by decide, by decide, by decide,
    add_update_merges exPackages exClient exWorld { Object := 0 } { Object := 1 }
      (by decide) (by decide) (by decide) (by decide) (by decide)⟩

/-- C6 fails as stated: the triples ("widgets.apps", "example.com", "v1") and
("widgets", "apps.example.com", "v1") get the same collection name whatever the Unicode
tables are, while their first and second components differ after case-folding. -/
theorem colName_collision :
    (∀ T : UnicodeTables,
      colName T { Resource := "widgets.apps", Group := "example.com", Version := "v1" }
        = colName T { Resource := "widgets", Group := "apps.example.com", Version := "v1" }) ∧
    (∀ T : UnicodeTables, ToLower T "widgets.apps" ≠ ToLower T "widgets") ∧
    (∀ T : UnicodeTables, ToLower T "example.com" ≠ ToLower T "apps.example.com") := by
  refine ⟨fun T => rfl, fun T => ?_, fun T => ?_⟩
  · rw [show ToLower T "widgets.apps" = "widgets.apps" from rfl,
      show ToLower T "widgets" = "widgets" from rfl]
    decide
  · rw [show ToLower T "example.com" = "example.com" from rfl,
      show ToLower T "apps.example.com" = "apps.example.com" from rfl]
    decide

/-- C6, as the code has it: when the case-folded resource names and the case-folded
versions of two triples contain no dot, equal collection names make the triples equal
component by component after case-folding, whatever the Unicode tables are. -/
theorem colName_injective_of_no_dot (T : UnicodeTables) (r r' : GroupVersionResource)
    (hR : '.' ∉ (ToLower T r.Resource).data) (hR' : '.' ∉ (ToLower T r'.Resource).data)
    (hV : '.' ∉ (ToLower T r.Version).data) (hV' : '.' ∉ (ToLower T r'.Version).data)
    (h : colName T r = colName T r') :
    ToLower T r.Resource = ToLower T r'.Resource ∧ ToLower T r.Group = ToLower T r'.Group ∧
    ToLower T r.Version = ToLower T r'.Version := by
  have hd := congrArg String.data h
  rw [colName_data, colName_data] at hd
  obtain ⟨h1, h2⟩ := split_at_first '.' _ _ _ _ hR hR' hd
  obtain ⟨h3, h4⟩ := split_at_last '.' _ _ _ _ hV hV' h2
  exact ⟨congrArg String.mk h1, congrArg String.mk h3, congrArg String.mk h4⟩

/-- Witness of the amended C6: "Kind" written with the Kelvin sign U+212A against "kind",
with groups and versions that differ in case only. -/
theorem colName_injective_of_no_dot_witness :
    '.' ∉ (ToLower exTables "Kind").data ∧ '.' ∉ (ToLower exTables "kind").data ∧
    '.' ∉ (ToLower exTables "V1").data ∧ '.' ∉ (ToLower exTables "v1").data ∧
    colName exTables { Resource := "Kind", Group := "Example.com", Version := "V1" }
      = colName exTables { Resource := "kind", Group := "example.COM", Version := "v1" } ∧
    ToLower exTables "Kind" = ToLower exTables "kind" ∧
    ToLower exTables "Example.com" = ToLower exTables "example.COM" ∧
    ToLower exTables "V1" = ToLower exTables "v1" :=
  ⟨by decide, by decide, by decide, by decide, by decide,
    colName_injective_of_no_dot exTables
      { Resource := "Kind", Group := "Example.com", Version := "V1" }
      { Resource := "kind", Group := "example.COM", Version := "v1" }
      (by decide) (by decide) (by decide) (by decide) (by decide)⟩

/-- C7 fails as stated: for the resource name made of U+2102 (double-struck capital C),
group example.com and version v1, the collection name is the input unchanged and
contains U+2102, an upper-case letter that has no lower-case form. -/
theorem colName_keeps_capital_without_lower_case :
    colName exTables { Resource := "ℂ", Group := "example.com", Version := "v1" }
      = "ℂ.example.com.v1" ∧
    Char.ofNat 0x2102 ∈
      (colName exTables { Resource := "ℂ", Group := "example.com", Version := "v1" }).data ∧
    unicodeIsUpper exTables (Char.ofNat 0x2102) = true ∧
    unicodeToLower exTables (Char.ofNat 0x2102) = Char.ofNat 0x2102 := by
  decide

/-- C7, as the code has it: for every triple and whatever the Unicode tables are, the
collection name of `EnsureIndexes` is, rune by rune, `unicode.ToLower` of
`Resource + "." + Group + "." + Version`: an ASCII capital becomes the small letter 32
code points above it, any other ASCII rune stays, and a rune above ASCII is mapped by the
table. An upper-case letter occurs in the name only as the table's image of a rune above
ASCII, so an ASCII triple gives a name without upper-case letters. For Widget,
example.com, v1 the name is `widget.example.com.v1`, the whole alphabet is lowered letter
by letter, a name from U+00C9 starts with U+00E9, and three empty strings give `..`. -/
theorem colName_lowercase (T : UnicodeTables) (r : GroupVersionResource) :
    (colName T r).data =
      (r.Resource ++ "." ++ r.Group ++ "." ++ r.Version).data.map (unicodeToLower T) ∧
    (∀ c, 'A' ≤ c ∧ c ≤ 'Z' →
      (unicodeToLower T c).toNat = c.toNat + 32 ∧
      'a' ≤ unicodeToLower T c ∧ unicodeToLower T c ≤ 'z') ∧
    (∀ c, c.toNat ≤ 127 → ¬ ('A' ≤ c ∧ c ≤ 'Z') → unicodeToLower T c = c) ∧
    (∀ c, 127 < c.toNat → unicodeToLower T c = T.toLower c) ∧
    (∀ ch ∈ (colName T r).data, unicodeIsUpper T ch = true →
      ∃ c ∈ (r.Resource ++ "." ++ r.Group ++ "." ++ r.Version).data,
        127 < c.toNat ∧ ch = T.toLower c) ∧
    ((∀ c ∈ (r.Resource ++ "." ++ r.Group ++ "." ++ r.Version).data, c.toNat ≤ 127) →
      ∀ ch ∈ (colName T r).data, unicodeIsUpper T ch = false) ∧
    colName T { Resource := "Widget", Group := "example.com", Version := "v1" }
      = "widget.example.com.v1" ∧
    colName T { Resource := "ABCDEFGHIJKLMNOPQRSTUVWXYZ", Group := "Example.COM",
                Version := "V1beta1" }
      = "abcdefghijklmnopqrstuvwxyz.example.com.v1beta1" ∧
    colName exTables { Resource := "École", Group := "example.com", Version := "v1" }
      = "école.example.com.v1" ∧
    colName T { Resource := "", Group := "", Version := "" } = ".." := by
  have hdata : (colName T r).data =
      (r.Resource ++ "." ++ r.Group ++ "." ++ r.Version).data.map (unicodeToLower T) := by
    rw [colName, ToLower_data]
  have hup : ∀ ch ∈ (colName T r).data, unicodeIsUpper T ch = true →
      ∃ c ∈ (r.Resource ++ "." ++ r.Group ++ "." ++ r.Version).data,
        127 < c.toNat ∧ ch = T.toLower c := by
    intro ch hch hupper
    rw [hdata, List.mem_map] at hch
    obtain ⟨c, hc, rfl⟩ := hch
    by_cases hascii : c.toNat ≤ 127
    · rw [unicodeToLower_ascii_not_upper T c hascii] at hupper
      cases hupper
    · have hgt : 127 < c.toNat := by omega
      exact ⟨c, hc, hgt, unicodeToLower_above T c hgt⟩
  refine ⟨hdata, unicodeToLower_capital T, unicodeToLower_ascii_other T,
    unicodeToLower_above T, hup, ?_, rfl, rfl, by decide, rfl⟩
  intro hall ch hch
  cases hu : unicodeIsUpper T ch with
  | false => rfl
  | true =>
    obtain ⟨c, hc, hgt, _⟩ := hup ch hch hu
    have := hall c hc
    omega

/-- Witness of the amended C7 on an ASCII triple with capitals in every component. -/
theorem colName_lowercase_witness :
    (∀ c ∈ ("Widget" ++ "." ++ "Example.COM" ++ "." ++ "V1").data, c.toNat ≤ 127) ∧
    (colName exTables { Resource := "Widget", Group := "Example.COM", Version := "V1" }).data
      = ("Widget" ++ "." ++ "Example.COM" ++ "." ++ "V1").data.map (unicodeToLower exTables) ∧
    ∀ ch ∈ (colName exTables
        { Resource := "Widget", Group := "Example.COM", Version := "V1" }).data,
      unicodeIsUpper exTables ch = false :=
  ⟨by decide,
    (colName_lowercase exTables
      { Resource := "Widget", Group := "Example.COM", Version := "V1" }).1,
    (colName_lowercase exTables
      { Resource := "Widget", Group := "Example.COM", Version := "V1" }).2.2.2.2.2.1
      (by decide)⟩

/-- C8: for a live resource, `createFilterAndUpdate` returns the filter `{_id: UID}` and the
update `{$set: objCopy}`, where `objCopy` maps `_id` to the UID, whatever the resource's
own `_id` entry is, and every other key to the value the resource has; the maps that were
on the heap before the call, the resource's own among them, are the same after it. -/
theorem createFilterAndUpdate_projection (h : Heap) (obj : Unstructured) (hlive : Live h obj) :
    (createFilterAndUpdate h obj).2.1 = [("_id", .str (obj.GetUID h))] ∧
    (∃ objCopy : Fields,
      (createFilterAndUpdate h obj).2.2 = [("$set", .map objCopy)] ∧
      mapIndex objCopy "_id" = some (.str (obj.GetUID h)) ∧
      ∀ k, k ≠ "_id" → mapIndex objCopy k = mapIndex (h.read obj.Object) k) ∧
    (createFilterAndUpdate h obj).1.read obj.Object = h.read obj.Object ∧
    (∀ a, a < h.length → (createFilterAndUpdate h obj).1.read a = h.read a) := by
  refine ⟨?_, ⟨objCopyOf h obj, ?_, objCopyOf_id h obj, fun k hk =>
    mapIndex_objCopyOf_ne h obj k hk⟩, createFilterAndUpdate_heap_read h obj hlive _ hlive,
    fun a ha => createFilterAndUpdate_heap_read h obj hlive a ha⟩
  · rw [createFilterAndUpdate_eq h obj hlive]
  · rw [createFilterAndUpdate_eq h obj hlive]

/-- Witness of C8 on an object whose own fields have an `_id` entry. -/
theorem createFilterAndUpdate_projection_witness :
    Live exWorld.heap { Object := 2 } ∧
    (createFilterAndUpdate exWorld.heap { Object := 2 }).2.1 = [("_id", .str "abc123")] ∧
    (createFilterAndUpdate exWorld.heap { Object := 2 }).2.2
      = [("$set", .map [("_id", .str "abc123"), ("kind", .str "Widget"),
          ("metadata", .map [("uid", .str "abc123")])])] ∧
    (createFilterAndUpdate exWorld.heap { Object := 2 }).1.read 2 = exWithId :=
  ⟨by decide, (createFilterAndUpdate_projection exWorld.heap { Object := 2 } (by decide)).1,
    by decide,
    (createFilterAndUpdate_projection exWorld.heap { Object := 2 } (by decide)).2.2.1⟩

/-- C9: whatever calls fail, `EnsureIndexes` makes exactly one `CreateOne` call per
configured spec, in the order of the configuration, all on the collection named by
`colName`; and it logs one event per spec in that order, an error with the cause for a
call that failed and a debug event for a call that succeeded. -/
theorem ensureIndexes_one_call_per_spec (P : Packages) (c : WriteThroughClient)
    (faults : List (Option String)) (w : World) :
    (c.EnsureIndexes P faults w).calls = w.calls ++
      c.config.Indexes.map (fun index =>
        DriverCall.createIndex { database := c.config.Database,
                                 collection := colName P.Unicode P.GetGroupVersionResource }
          (P.ToIndexModel index)) ∧
    (c.EnsureIndexes P faults w).log.map (fun e => (e.level, e.err, e.msg)) =
      w.log.map (fun e => (e.level, e.err, e.msg)) ++
        (List.range c.config.Indexes.length).map (fun i =>
          match faults.getD i none with
          | some err => (Level.error, some err, "Could not create index")
          | none => (Level.debug, none, "Created index")) :=
  ⟨ensureLoop_calls P c _ faults w, ensureLoop_log P c _ faults w⟩

end Quasar
